import Mathlib

/-!
# Holder-side mdoc disclosure: a shallow embedding

This file embeds the holder-side disclosure logic of the wallet
(`wallet_core/mdoc/src/holder/disclosure.rs` together with the request
data model of `wallet_core/mdoc/src/iso/device_retrieval.rs`) as pure
Lean functions, and proves the spec's testable properties about them.

Modelling conventions:
* `IndexMap`/`IndexSet` become association lists / lists in insertion
  order; `HashMap`/`HashSet` also become association lists (their
  iteration order is unspecified in Rust, so theorems about values
  drawn from them are stated at the level of membership).
* Byte strings are `List Nat`; CBOR `TaggedBytes` wrappers are
  transparent.
* External cryptographic primitives (COSE signature verification,
  certificate parsing, CBOR encoding, key derivation) live in a `Ctx`
  record of function parameters; the repository's control flow around
  them is embedded faithfully.
* Rust `panic!`/`expect`/`unwrap` abort the process rather than return
  an error value; the `Outcome` monad keeps the three cases (`panic`,
  `error`, `ok`) apart.
-/

namespace Disclosure

/-- Byte strings (CBOR payloads, certificates, keys) are abstract bytes. -/
abbrev Bytes := List Nat

abbrev DocType := String
abbrev NameSpace := String
abbrev Url := String

/-- `AttributeIdentifier` — (credential type, namespace, attribute name),
the atomic unit of matching (`identifiers.rs`; the struct's fields are
visible at the construction site in `ProposedDocument::from_mdoc`). -/
structure AttributeIdentifier where
  doc_type : DocType
  nameSpace : NameSpace
  «attribute» : String
deriving DecidableEq, Repr

/-- `IssuerSignedItem` — one issuer-signed attribute entry.  Only the
element identifier and value take part in the holder-side logic. -/
structure IssuerSignedItem where
  element_identifier : String
  element_value : String
deriving DecidableEq, Repr

/-- `Attributes` — the issuer-signed entries of one namespace, in
issuer order (`Vec<TaggedBytes<IssuerSignedItem>>`). -/
abbrev Attributes := List IssuerSignedItem

/-- `IssuerNameSpaces` — namespace → attributes, in issuer order. -/
abbrev IssuerNameSpaces := List (NameSpace × Attributes)

/-- The issuer's COSE signature over the credential, opaque bytes. -/
abbrev IssuerAuth := Bytes

/-- `IssuerSigned` — issuer-signed namespaces plus issuer signature. -/
structure IssuerSigned where
  name_spaces : Option IssuerNameSpaces
  issuer_auth : IssuerAuth
deriving DecidableEq, Repr

/-- `Mdoc` — a held credential: credential type, issuer-signed data and
a reference to the holder's private key. -/
structure Mdoc where
  doc_type : DocType
  issuer_signed : IssuerSigned
  private_key_id : String
deriving DecidableEq, Repr

/-- Modelled from the spec: `IssuerSigned::attribute_identifiers`
(declared in `identifiers.rs`, outside the provided sources) — the set
of attribute identifiers available in an mdoc's issuer-signed data:
one `(doc_type, namespace, attribute name)` triple per entry. -/
def IssuerSigned.attribute_identifiers (is : IssuerSigned) (docType : DocType) :
    List AttributeIdentifier :=
  match is.name_spaces with
  | none => []
  | some nss =>
    nss.flatMap fun p => p.2.map fun a => ⟨docType, p.1, a.element_identifier⟩

/-- Retention intent flag attached to each requested data element. -/
abbrev IndentToRetain := Bool

/-- Requested data elements of one namespace: attribute name → retention
intent, in request order. -/
abbrev DataElements := List (String × IndentToRetain)

/-- `ItemsRequest` — the attributes an RP wishes disclosed out of one
doctype (`request_info` free-form data carried opaquely). -/
structure ItemsRequest where
  doc_type : DocType
  name_spaces : List (NameSpace × DataElements)
  request_info : Option String
deriving DecidableEq, Repr

/-- The verifier's COSE reader-authentication signature, opaque bytes. -/
abbrev ReaderAuth := Bytes

/-- `DocRequest` — an `ItemsRequest` (its `TaggedBytes` wrapper is
transparent here) plus optional reader authentication. -/
structure DocRequest where
  items_request : ItemsRequest
  reader_auth : Option ReaderAuth
deriving DecidableEq, Repr

/-- `DeviceRequestVersion` — only `1.0` exists. -/
inductive DeviceRequestVersion where
  | v1_0
deriving DecidableEq, Repr

/-- `DeviceRequest` — the verifier's full request. -/
structure DeviceRequest where
  version : DeviceRequestVersion
  doc_requests : List DocRequest
  return_url : Option Url
deriving DecidableEq, Repr

/-- Modelled from the spec: `ItemsRequest` attribute identifiers — every
requested (doctype, namespace, attribute) triple, in request order. -/
def ItemsRequest.attribute_identifiers (ir : ItemsRequest) :
    List AttributeIdentifier :=
  ir.name_spaces.flatMap fun p => p.2.map fun d => ⟨ir.doc_type, p.1, d.1⟩

/-- Modelled from the spec: `DeviceRequest::attribute_identifiers`
(declared in `identifiers.rs`, outside the provided sources) — the
requested attribute identifiers of all doc requests, in request order. -/
def DeviceRequest.attribute_identifiers (dr : DeviceRequest) :
    List AttributeIdentifier :=
  dr.doc_requests.flatMap fun d => d.items_request.attribute_identifiers

/-- A verifier certificate; compared byte-for-byte (`Certificate` wraps
DER bytes and derives `PartialEq`). -/
abbrev Certificate := Bytes

/-- `ReaderRegistration` — the verifier's identity and its authorized
attribute set, as carried in its certificate (spec §3). -/
structure ReaderRegistration where
  organization : String
  authorized : List AttributeIdentifier
deriving DecidableEq, Repr

/-- `CertificateType` — what a parsed certificate extension says the
certificate is for. -/
inductive CertificateType where
  | mdoc
  | readerAuth (registration : ReaderRegistration)
deriving DecidableEq, Repr

/-- `ProposedDocument` — an mdoc filtered down to the requested
attributes, plus the device-signed challenge for its doctype. -/
structure ProposedDocument where
  private_key_id : String
  doc_type : DocType
  issuer_signed : IssuerSigned
  device_signed_challenge : Bytes
deriving DecidableEq, Repr

/-- `DeviceRequestMatch` — outcome of matching a request against the
stored credentials. -/
inductive DeviceRequestMatch where
  | candidates (byDocType : List (DocType × List ProposedDocument))
  | missingAttributes (missing : List AttributeIdentifier)
deriving DecidableEq, Repr

/-- `HolderError` — holder-side error taxonomy (spec §7). -/
inductive HolderError where
  | verifierUrlMissing
  | verifierEphemeralKeyMissing
  | noDocumentRequests
  | readerAuthMissing
  | readerAuthsInconsistent
  | noReaderRegistration (certificate : Certificate)
  | readerRegistrationValidation
  | mdocDataSource
  | attributesNotAvailable (registration : ReaderRegistration)
      (missing : List AttributeIdentifier)
  | multipleCandidates (docTypes : List DocType)
  | unsatisfiableRequest (docType : DocType)
deriving DecidableEq, Repr

/-- Top-level `Error`: a holder error or a wrapped decode/crypto error. -/
inductive MError where
  | holder (e : HolderError)
  | cbor
  | crypto
  | cose
deriving DecidableEq, Repr

/-- The three ways a fallible holder operation can end: a process abort
(Rust `panic!`/`expect`/`unwrap`), an error value, or success. -/
inductive Outcome (α : Type) where
  | panic (msg : String)
  | error (e : MError)
  | ok (a : α)
deriving DecidableEq, Repr

namespace Outcome

def bind : Outcome α → (α → Outcome β) → Outcome β
  | .panic m, _ => .panic m
  | .error e, _ => .error e
  | .ok a, f => f a

instance : Monad Outcome where
  pure := .ok
  bind := bind

end Outcome

/-! ## Session material and external primitives -/

abbrev SecretKey := Bytes
abbrev PublicKey := Bytes
abbrev SessionTranscript := Bytes
abbrev SessionKey := Bytes
abbrev SessionData := Bytes

/-- `SessionType` — the flow type bound into the transcript. -/
inductive SessionType where
  | sameDevice
  | crossDevice
deriving DecidableEq, Repr

/-- `SessionKeyUser` — the direction tag of a derived session key. -/
inductive SessionKeyUser where
  | reader
  | device
deriving DecidableEq, Repr

inductive EngagementVersion where
  | v1_0
deriving DecidableEq, Repr

inductive OriginInfoDirection where
  | received
  | delivered
deriving DecidableEq, Repr

inductive OriginInfoType where
  | website (url : Url)
  | messageData
deriving DecidableEq, Repr

structure OriginInfo where
  cat : OriginInfoDirection
  typ : OriginInfoType
deriving DecidableEq, Repr

structure ConnectionOptions where
  uri : Url
deriving DecidableEq, Repr

structure ConnectionMethod where
  connection_options : ConnectionOptions
deriving DecidableEq, Repr

/-- `Engagement` — version, optional sender public key (the CBOR key
encoding is transparent here), connection methods and origin markers. -/
structure Engagement where
  version : EngagementVersion
  security : Option PublicKey
  connection_methods : Option (List ConnectionMethod)
  origin_infos : List OriginInfo
deriving DecidableEq, Repr

abbrev ReaderEngagement := Engagement
abbrev DeviceEngagement := Engagement

/-- External primitives consumed by the holder logic.  Each field stands
for a deterministic function from a collaborating crate (COSE / webpki /
CBOR / HKDF); the control flow around them is embedded faithfully.
CBOR encoding of in-memory values is modelled total (its error path is
never taken), while parsing and verification stay fallible. -/
structure Ctx where
  /-- `MdocCose::verify_against_trust_anchors` + `signing_cert` for a
  reader-auth COSE over the reconstructed payload
  (domain string, transcript, items-request bytes). -/
  coseVerify : ReaderAuth → SessionTranscript → ItemsRequest → Outcome Certificate
  /-- `CertificateType::from_certificate` — parse the certificate
  extension. -/
  fromCertificate : Certificate → Outcome (Option CertificateType)
  /-- CBOR bytes of `DeviceAuthentication(transcript, doc_type)` used as
  the device-signed challenge. -/
  serializeChallenge : SessionTranscript → DocType → Bytes
  /-- Modelled from the spec: `SessionTranscript::new` — deterministic
  function of (flow type, ReaderEngagement, DeviceEngagement); `none`
  models its error case. -/
  sessionTranscriptNew : SessionType → ReaderEngagement → DeviceEngagement → Option SessionTranscript
  /-- Modelled from the spec: `SessionKey::new` — key agreement plus
  transcript-and-direction-bound expansion. -/
  sessionKeyNew : SecretKey → PublicKey → SessionTranscript → SessionKeyUser → Outcome SessionKey
  /-- Public half of an ephemeral key pair. -/
  pubkeyOf : SecretKey → PublicKey
  /-- `sign_cose` with the key resolved from a private-key reference. -/
  signCose : String → Bytes → Bytes

/-! ## Attribute matching (`ProposedDocument`, `match_stored_documents`) -/

/-- `basic_sa_ext::Entry` — an attribute name/value pair as shown to the
user in a proposal. -/
structure Entry where
  name : String
  value : String
deriving DecidableEq, Repr

/-- `IndexSet::insert` — append if not already present. -/
def insertDedup [DecidableEq α] (s : List α) (a : α) : List α :=
  if a ∈ s then s else s ++ [a]

/-- One step of building `requested_attributes_by_doc_type`: insert an
attribute identifier into the per-doctype requested set. -/
def mapInsert : List (DocType × List AttributeIdentifier) → AttributeIdentifier →
    List (DocType × List AttributeIdentifier)
  | [], ai => [(ai.doc_type, [ai])]
  | (d, s) :: rest, ai =>
    if d = ai.doc_type then (d, insertDedup s ai) :: rest
    else (d, s) :: mapInsert rest ai

/-- The requested attribute identifiers grouped per doctype
(`DeviceRequest::match_stored_documents`, fold over
`attribute_identifiers`). -/
def DeviceRequest.requestedAttributesByDocType (dr : DeviceRequest) :
    List (DocType × List AttributeIdentifier) :=
  dr.attribute_identifiers.foldl mapInsert []

/-- `HashMap::remove_entry` — take the entry for a key out of the map,
returning it together with the remainder. -/
def removeEntry : List (DocType × α) → DocType →
    Option ((DocType × α) × List (DocType × α))
  | [], _ => none
  | (d, v) :: rest, key =>
    if d = key then some ((d, v), rest)
    else (removeEntry rest key).map fun (e, m) => (e, (d, v) :: m)

/-- `ProposedDocument::from_mdoc` — clone the mdoc, keeping only the
requested attributes (namespaces left empty by the filter are dropped),
carry the issuer signature over and store the challenge. -/
def ProposedDocument.from_mdoc (mdoc : Mdoc)
    (requested_attributes : List AttributeIdentifier)
    (device_signed_challenge : Bytes) : ProposedDocument :=
  let name_spaces := mdoc.issuer_signed.name_spaces.map fun nss =>
    nss.filterMap fun p =>
      let attrs := p.2.filter fun a =>
        decide ((⟨mdoc.doc_type, p.1, a.element_identifier⟩ : AttributeIdentifier)
          ∈ requested_attributes)
      if attrs.isEmpty then none else some (p.1, attrs)
  { private_key_id := mdoc.private_key_id
    doc_type := mdoc.doc_type
    issuer_signed :=
      { name_spaces := name_spaces
        issuer_auth := mdoc.issuer_signed.issuer_auth }
    device_signed_challenge := device_signed_challenge }

/-- `ProposedDocument::name_spaces` — the attributes contained in the
proposal, as `Entry` values. -/
def ProposedDocument.name_spaces (pd : ProposedDocument) :
    List (NameSpace × List Entry) :=
  (pd.issuer_signed.name_spaces.map fun nss =>
    nss.map fun p =>
      (p.1, p.2.map fun a => ({ name := a.element_identifier, value := a.element_value } : Entry))).getD []

/-- `ProposedDocument::candidates_and_missing_attributes_from_mdocs` —
split a same-doctype group into satisfying proposals and, for each
non-satisfying mdoc, its missing-attribute record, both in input order.
(The Rust function returns `Result` but has no error path.) -/
def ProposedDocument.candidates_and_missing_attributes_from_mdocs :
    List Mdoc → List AttributeIdentifier → Bytes →
    List ProposedDocument × List (List AttributeIdentifier)
  | [], _, _ => ([], [])
  | mdoc :: rest, requested_attributes, device_signed_challenge =>
    let (ps, ms) := candidates_and_missing_attributes_from_mdocs rest
      requested_attributes device_signed_challenge
    let available_attributes :=
      mdoc.issuer_signed.attribute_identifiers mdoc.doc_type
    let missing_attributes := requested_attributes.filter fun ai =>
      decide (ai ∉ available_attributes)
    if missing_attributes.isEmpty then
      (ProposedDocument.from_mdoc mdoc requested_attributes device_signed_challenge :: ps, ms)
    else
      (ps, missing_attributes :: ms)

/-- The per-group loop of `match_stored_documents`: filter out empty
groups; per group take the requested set for its first mdoc's doctype
out of the working map (a miss is a contract violation and panics),
panic on inconsistent doctypes inside the group, compute the challenge
and collect candidates, keeping only the first missing-attribute record
per group.  Returns (candidates per doctype, retained missing records,
remaining working map). -/
def matchLoop (ctx : Ctx) (transcript : SessionTranscript) :
    List (List Mdoc) → List (DocType × List AttributeIdentifier) →
    Outcome (List (DocType × List ProposedDocument) ×
      List (List AttributeIdentifier) × List (DocType × List AttributeIdentifier))
  | [], reqMap => .ok ([], [], reqMap)
  | [] :: rest, reqMap => matchLoop ctx transcript rest reqMap
  | (firstMdoc :: groupTail) :: rest, reqMap =>
    match removeEntry reqMap firstMdoc.doc_type with
    | none => .panic "Received mdoc candidate with unexpected doc_type from storage"
    | some ((doc_type, requested_attributes), reqMapRest) =>
      if (firstMdoc :: groupTail).all fun mdoc => decide (mdoc.doc_type = doc_type) then
        let device_signed_challenge := ctx.serializeChallenge transcript doc_type
        let (candidates, missing_attributes) :=
          ProposedDocument.candidates_and_missing_attributes_from_mdocs
            (firstMdoc :: groupTail) requested_attributes device_signed_challenge
        (matchLoop ctx transcript rest reqMapRest).bind fun (cs, ms, finalMap) =>
          .ok ((doc_type, candidates) :: cs,
            (match missing_attributes.head? with
             | some m => m :: ms
             | none => ms),
            finalMap)
      else
        .panic "Received mdoc candidate with inconsistent doc_type from storage"

/-- `DeviceRequest::match_stored_documents` — match the request against
the credential source's result.  `sourceResult` is the value returned by
the external `MdocDataSource` (its error is wrapped as
`HolderError::MdocDataSource`). -/
def DeviceRequest.match_stored_documents (ctx : Ctx) (dr : DeviceRequest)
    (sourceResult : Except Unit (List (List Mdoc)))
    (transcript : SessionTranscript) : Outcome DeviceRequestMatch :=
  match sourceResult with
  | .error _ => .error (.holder .mdocDataSource)
  | .ok mdocs =>
    (matchLoop ctx transcript mdocs dr.requestedAttributesByDocType).bind
      fun (candidates_by_doc_type, all_missing_attributes, remaining) =>
        if candidates_by_doc_type.any (fun p => p.2.isEmpty) || !remaining.isEmpty then
          .ok (.missingAttributes
            (all_missing_attributes.flatten ++ remaining.flatMap (·.2)))
        else
          .ok (.candidates candidates_by_doc_type)

/-! ## Reader authentication (`DocRequest::verify`, `DeviceRequest::verify`) -/

/-- `DocRequest::verify` — if reader authentication is present,
reconstruct the signed payload from the transcript and the items
request, verify it against the trust anchors and return the signing
certificate. -/
def DocRequest.verify (ctx : Ctx) (dr : DocRequest)
    (session_transcript : SessionTranscript) : Outcome (Option Certificate) :=
  match dr.reader_auth with
  | none => .ok none
  | some reader_auth =>
    (ctx.coseVerify reader_auth session_transcript dr.items_request).bind fun cert =>
      .ok (some cert)

/-- Modelled from the spec: `DeviceRequest::verify_requested_attributes`
(declared outside the provided sources) — every requested attribute
identifier must be within the registration's authorized set. -/
def DeviceRequest.verify_requested_attributes (dr : DeviceRequest)
    (reader_registration : ReaderRegistration) : Outcome Unit :=
  if dr.attribute_identifiers.all fun ai => decide (ai ∈ reader_registration.authorized) then
    .ok ()
  else
    .error (.holder .readerRegistrationValidation)

/-- The `try_fold` inside `DeviceRequest::verify`: verify each doc
request in turn (the `unwrap` of its certificate is a panic when the
doc request turns out unsigned) and compare each certificate with the
previously extracted one. -/
def verifyFold (ctx : Ctx) (session_transcript : SessionTranscript) :
    List DocRequest → Option Certificate → Outcome (Option Certificate)
  | [], acc => .ok acc
  | doc_request :: rest, acc =>
    (doc_request.verify ctx session_transcript).bind fun optCert =>
      match optCert with
      | none => .panic "called Option::unwrap on a None value"
      | some doc_request_cert =>
        match acc with
        | some result_cert =>
          if doc_request_cert = result_cert then
            verifyFold ctx session_transcript rest (some doc_request_cert)
          else
            .error (.holder .readerAuthsInconsistent)
        | none => verifyFold ctx session_transcript rest (some doc_request_cert)

/-- `DeviceRequest::verify` — all-or-nothing reader authentication:
none signed yields no registration; a mix fails `ReaderAuthMissing`;
all signed requires byte-identical certificates, a parseable
`ReaderAuth` certificate extension, and authorization of every
requested attribute. -/
def DeviceRequest.verify (ctx : Ctx) (dr : DeviceRequest)
    (session_transcript : SessionTranscript) : Outcome (Option ReaderRegistration) :=
  if dr.doc_requests.all fun d => d.reader_auth.isNone then
    .ok none
  else if dr.doc_requests.any fun d => d.reader_auth.isNone then
    .error (.holder .readerAuthMissing)
  else
    (verifyFold ctx session_transcript dr.doc_requests none).bind fun optCert =>
      match optCert with
      | none => .panic "called Option::unwrap on a None value"
      | some certificate =>
        (ctx.fromCertificate certificate).bind fun certType =>
          match certType with
          | some (.readerAuth reader_registration) =>
            (dr.verify_requested_attributes reader_registration).bind fun _ =>
              .ok (some reader_registration)
          | _ => .error (.holder (.noReaderRegistration certificate))

/-! ## Engagement, transcript and keys -/

def REFERRER_URL : Url := "https://referrer.url/"

/-- `ReaderEngagement::verifier_url` — the URL of the first connection
method. -/
def ReaderEngagement.verifier_url (re : ReaderEngagement) : Outcome Url :=
  match re.connection_methods >>= List.head? with
  | some m => .ok m.connection_options.uri
  | none => .error (.holder .verifierUrlMissing)

/-- `ReaderEngagement::verifier_public_key` — the verifier's ephemeral
public key from the security field (the key-bytes parse is transparent
here). -/
def ReaderEngagement.verifier_public_key (re : ReaderEngagement) : Outcome PublicKey :=
  match re.security with
  | some key => .ok key
  | none => .error (.holder .verifierEphemeralKeyMissing)

/-- `ReaderEngagement::transcript_and_keys_for_device_engagement` —
compute the session transcript from both engagements and derive the
reader- and device-direction session keys. -/
def ReaderEngagement.transcript_and_keys_for_device_engagement (ctx : Ctx)
    (re : ReaderEngagement) (session_type : SessionType)
    (device_engagement : DeviceEngagement) (device_private_key : SecretKey) :
    Outcome (SessionTranscript × SessionKey × SessionKey) :=
  re.verifier_public_key.bind fun verifier_public_key =>
    match ctx.sessionTranscriptNew session_type re device_engagement with
    | none => .error (.holder .verifierEphemeralKeyMissing)
    | some session_transcript =>
      (ctx.sessionKeyNew device_private_key verifier_public_key
          session_transcript .reader).bind fun reader_key =>
        (ctx.sessionKeyNew device_private_key verifier_public_key
            session_transcript .device).bind fun device_key =>
          .ok (session_transcript, reader_key, device_key)

/-- `DeviceEngagement::new_device_engagement` — build the device
engagement around a freshly generated ephemeral key (the key is drawn
from the OS RNG, so it is a parameter here) with the two origin-info
provenance markers. -/
def DeviceEngagement.new_device_engagement (ctx : Ctx) (referrer_url : Url)
    (privkey : SecretKey) : DeviceEngagement × SecretKey :=
  ({ version := .v1_0
     security := some (ctx.pubkeyOf privkey)
     connection_methods := none
     origin_infos :=
       [{ cat := .received, typ := .website referrer_url },
        { cat := .delivered, typ := .messageData }] },
   privkey)

/-! ## The disclosure session (`DisclosureSession::start`) -/

/-- `DisclosureSession` — an established session in the proposal state.
(The transport handle `client` carries no data relevant to the
properties here and is omitted.) -/
structure DisclosureSession where
  return_url : Option Url
  verifier_url : Url
  device_key : SessionKey
  proposed_documents : List ProposedDocument
  reader_registration : ReaderRegistration
deriving DecidableEq, Repr

/-- `DisclosureSession::start` — the full session-establishment
pipeline.  External effects appear as parameters: `decodeResult` is the
CBOR decode of the received reader-engagement bytes,
`ephemeral_privkey` the freshly generated key, `post` the transport
round trip, `decryptAndDeserialize` the decryption of the returned
envelope, and `sourceResult` the credential source's answer. -/
def DisclosureSession.start (ctx : Ctx)
    (decodeResult : Outcome ReaderEngagement)
    (ephemeral_privkey : SecretKey)
    (post : DeviceEngagement → Outcome SessionData)
    (decryptAndDeserialize : SessionData → SessionKey → Outcome DeviceRequest)
    (return_url : Option Url) (session_type : SessionType)
    (sourceResult : Except Unit (List (List Mdoc))) :
    Outcome DisclosureSession :=
  decodeResult.bind fun reader_engagement =>
  reader_engagement.verifier_url.bind fun verifier_url =>
  let (device_engagement, privkey) :=
    DeviceEngagement.new_device_engagement ctx REFERRER_URL ephemeral_privkey
  (reader_engagement.transcript_and_keys_for_device_engagement ctx
      session_type device_engagement privkey).bind fun (transcript, reader_key, device_key) =>
  (post device_engagement).bind fun session_data =>
  (decryptAndDeserialize session_data reader_key).bind fun device_request =>
  if device_request.doc_requests.isEmpty then
    .error (.holder .noDocumentRequests)
  else
    (device_request.verify ctx transcript).bind fun optRegistration =>
    match optRegistration with
    | none => .error (.holder .readerAuthMissing)
    | some reader_registration =>
      (device_request.match_stored_documents ctx sourceResult transcript).bind fun m =>
      match m with
      | .missingAttributes missing_attributes =>
        .error (.holder (.attributesNotAvailable reader_registration missing_attributes))
      | .candidates candidates_by_doc_type =>
        if candidates_by_doc_type.any fun p => decide (p.2.length > 1) then
          let duplicate_doc_types :=
            (candidates_by_doc_type.filter fun p => decide (p.2.length > 1)).map (·.1)
          .error (.holder (.multipleCandidates duplicate_doc_types))
        else
          let proposed_documents := candidates_by_doc_type.flatMap (·.2)
          .ok { return_url := return_url
                verifier_url := verifier_url
                device_key := device_key
                proposed_documents := proposed_documents
                reader_registration := reader_registration }

/-- `DisclosureSession::proposed_attributes` — the ordered
type → namespace → attribute view for the consent UI. -/
def DisclosureSession.proposed_attributes (s : DisclosureSession) :
    List (DocType × List (NameSpace × List Entry)) :=
  s.proposed_documents.map fun d => (d.doc_type, d.name_spaces)

/-! ## Response assembly (`Wallet::disclose`) -/

/-- `DeviceAuth` — signature- or MAC-based device authentication. -/
inductive DeviceAuth where
  | deviceSignature (cose : Bytes)
  | deviceMac (cose : Bytes)
deriving DecidableEq, Repr

/-- `DeviceSigned` — device-asserted namespaces plus device
authentication. -/
structure DeviceSigned where
  name_spaces : List (NameSpace × Bytes)
  device_auth : DeviceAuth
deriving DecidableEq, Repr

/-- `DeviceSigned::new_signature` — sign the challenge with the
resolved holder key; the device-asserted namespace map is always
empty and the proof is signature-based. -/
def DeviceSigned.new_signature (ctx : Ctx) (private_key_id : String)
    (challenge : Bytes) : DeviceSigned :=
  { name_spaces := []
    device_auth := .deviceSignature (ctx.signCose private_key_id challenge) }

/-- `Document` — one disclosed credential in the response. -/
structure Document where
  doc_type : DocType
  issuer_signed : IssuerSigned
  device_signed : DeviceSigned
  errors : Option Bytes
deriving DecidableEq, Repr

inductive DeviceResponseVersion where
  | v1_0
deriving DecidableEq, Repr

/-- `DeviceResponse` — the final disclosure payload. -/
structure DeviceResponse where
  version : DeviceResponseVersion
  documents : Option (List Document)
  document_errors : Option Bytes
  status : Nat
deriving DecidableEq, Repr

/-- `Attributes::filter` — keep only the issuer-signed entries whose
element identifier is a requested data element. -/
def Attributes.filter (attrs : Attributes) (requested : DataElements) : Attributes :=
  List.filter (fun attr =>
    decide (attr.element_identifier ∈ requested.map Prod.fst)) attrs

/-- `Mdoc::disclose_document` — build a `Document` for one items
request: keep the requested namespaces and attributes, carry the issuer
signature over and sign the device-authentication challenge
(the `unwrap` of the namespaces is a panic when they are absent). -/
def Mdoc.disclose_document (ctx : Ctx) (m : Mdoc) (items_request : ItemsRequest)
    (session_transcript : SessionTranscript) : Outcome Document :=
  match m.issuer_signed.name_spaces with
  | none => .panic "called Option::unwrap on a None value"
  | some nss =>
    let disclosed_namespaces := nss.filterMap fun p =>
      match List.lookup p.1 items_request.name_spaces with
      | some requested => some (p.1, Attributes.filter p.2 requested)
      | none => none
    let challenge := ctx.serializeChallenge session_transcript m.doc_type
    .ok { doc_type := items_request.doc_type
          issuer_signed :=
            { name_spaces := some disclosed_namespaces
              issuer_auth := m.issuer_signed.issuer_auth }
          device_signed := DeviceSigned.new_signature ctx m.private_key_id challenge
          errors := none }

/-- `MdocCopies` — the stored copies of one credential. -/
structure MdocCopies where
  cred_copies : List Mdoc
deriving DecidableEq, Repr

/-- `Wallet::disclose_document` — look up any mdoc of the requested
doctype (index `[0]` into the copies is a panic when empty) and
disclose it. -/
def Wallet.disclose_document (ctx : Ctx)
    (retrieve : DocType → Option (List MdocCopies)) (doc_request : DocRequest)
    (session_transcript : SessionTranscript) : Outcome Document :=
  match retrieve doc_request.items_request.doc_type with
  | none => .error (.holder (.unsatisfiableRequest doc_request.items_request.doc_type))
  | some creds =>
    match creds.head? with
    | none => .error (.holder (.unsatisfiableRequest doc_request.items_request.doc_type))
    | some firstCopies =>
      match firstCopies.cred_copies.head? with
      | none => .panic "index out of bounds"
      | some cred =>
        cred.disclose_document ctx doc_request.items_request session_transcript

/-- Sequence a fallible operation over a list, left to right
(`try_join_all` over an ordered iterator). -/
def mapOutcome (f : α → Outcome β) : List α → Outcome (List β)
  | [] => .ok []
  | a :: rest =>
    (f a).bind fun b => (mapOutcome f rest).bind fun bs => .ok (b :: bs)

/-- `Wallet::disclose` — one `Document` per doc request, fixed version
`1.0`, status `0`, and no per-document error reporting. -/
def Wallet.disclose (ctx : Ctx)
    (retrieve : DocType → Option (List MdocCopies))
    (device_request : DeviceRequest)
    (session_transcript : SessionTranscript) : Outcome DeviceResponse :=
  (mapOutcome
      (fun doc_request =>
        Wallet.disclose_document ctx retrieve doc_request session_transcript)
      device_request.doc_requests).bind fun docs =>
    .ok { version := .v1_0
          documents := some docs
          document_errors := none
          status := 0 }

/-! ## Specification-side definitions

These definitions follow the spec's words (not the code's shape) and are
compared against the embedded functions in the refinement theorems. -/

/-- Association-list lookup (the value stored under a key, if any). -/
def aLookup : List (DocType × α) → DocType → Option α
  | [], _ => none
  | (d, v) :: rest, key => if d = key then some v else aLookup rest key

/-- Remove the (first) entry for a key from an association list. -/
def eraseKey : List (DocType × α) → DocType → List (DocType × α)
  | [], _ => []
  | (d, v) :: rest, key => if d = key then rest else (d, v) :: eraseKey rest key

/-- The requested attribute set stored for a doctype (empty if absent). -/
def reqGet (m : List (DocType × List AttributeIdentifier)) (d : DocType) :
    List AttributeIdentifier :=
  (aLookup m d).getD []

/-- The doctypes of the non-empty groups returned by the credential
source, read off their first mdocs. -/
def groupDocTypes (groups : List (List Mdoc)) : List DocType :=
  groups.filterMap fun g => g.head?.map (·.doc_type)

/-- Spec §8: an mdoc satisfies a requested set R when R ⊆ A, A being its
available attribute identifiers. -/
def mdocSatisfies (m : Mdoc) (R : List AttributeIdentifier) : Bool :=
  R.all fun ai => decide (ai ∈ m.issuer_signed.attribute_identifiers m.doc_type)

/-- Spec §4.3 / claim C4, written from the spec's words: the reported
missing set is, for each processed (non-empty, returned) group, the
first non-satisfying mdoc's missing-attribute record, followed by all
requested identifiers of every doctype the source never returned. -/
def specMissingList (dr : DeviceRequest) (groups : List (List Mdoc)) :
    List AttributeIdentifier :=
  let reqMap := dr.requestedAttributesByDocType
  (groups.filterMap fun g =>
    g.head?.bind fun m0 =>
      ((g.filter fun mdoc => !mdocSatisfies mdoc (reqGet reqMap m0.doc_type)).head?).map
        fun mdoc => (reqGet reqMap m0.doc_type).filter fun ai =>
          decide (ai ∉ mdoc.issuer_signed.attribute_identifiers mdoc.doc_type)).flatten
  ++ (reqMap.filter fun p => decide (p.1 ∉ groupDocTypes groups)).flatMap (·.2)

/-- The candidates map the loop produces, written pointwise: one entry
per non-empty group, keyed by its doctype, holding the proposals of its
satisfying mdocs. -/
def specCands (ctx : Ctx) (transcript : SessionTranscript)
    (reqMap : List (DocType × List AttributeIdentifier))
    (groups : List (List Mdoc)) : List (DocType × List ProposedDocument) :=
  groups.filterMap fun g =>
    g.head?.map fun m0 =>
      (m0.doc_type,
        (ProposedDocument.candidates_and_missing_attributes_from_mdocs g
          (reqGet reqMap m0.doc_type)
          (ctx.serializeChallenge transcript m0.doc_type)).1)

/-- The missing-attribute records the loop retains: the first record of
each non-empty group, relative to a fixed requested-attributes map. -/
def specMissingRecords (ctx : Ctx) (transcript : SessionTranscript)
    (reqMap : List (DocType × List AttributeIdentifier))
    (groups : List (List Mdoc)) : List (List AttributeIdentifier) :=
  groups.filterMap fun g =>
    g.head?.bind fun m0 =>
      (ProposedDocument.candidates_and_missing_attributes_from_mdocs g
        (reqGet reqMap m0.doc_type)
        (ctx.serializeChallenge transcript m0.doc_type)).2.head?

/-- The working map after all groups were consumed. -/
def eraseKeysAll (reqMap : List (DocType × List AttributeIdentifier))
    (groups : List (List Mdoc)) : List (DocType × List AttributeIdentifier) :=
  groups.foldl
    (fun acc g => match g.head? with
      | some m0 => eraseKey acc m0.doc_type
      | none => acc)
    reqMap

/-- Spec §6: the credential source's grouping contract — every returned
group holds mdocs of one doctype, that doctype was requested, and no
doctype occurs in more than one group. -/
def SourceHonorsContract (dr : DeviceRequest) (groups : List (List Mdoc)) : Prop :=
  (∀ g ∈ groups, ∀ m ∈ g, ∀ m' ∈ g, m.doc_type = m'.doc_type) ∧
  (∀ d ∈ groupDocTypes groups, d ∈ dr.doc_requests.map (·.items_request.doc_type)) ∧
  (groupDocTypes groups).Nodup

/-- Spec §8 filtering correctness, written from the spec's words: per
namespace, the intersection of the issuer-signed attributes with the
requested set in original order, namespaces with empty intersection
omitted. -/
def specIntersection (docType : DocType) (nss : IssuerNameSpaces)
    (R : List AttributeIdentifier) : IssuerNameSpaces :=
  (nss.map fun p =>
    (p.1, List.filter (fun a =>
      decide ((⟨docType, p.1, a.element_identifier⟩ : AttributeIdentifier) ∈ R)) p.2)).filter
    fun p => decide (p.2 ≠ [])

/-! ## Concrete fixtures

Closed inputs used by the witness and counterexample theorems. -/

def testAuthorized : List AttributeIdentifier :=
  [⟨"X", "ns", "a"⟩, ⟨"X", "ns", "b"⟩, ⟨"Y", "ns", "z"⟩]

def testRegistration : ReaderRegistration :=
  { organization := "rp", authorized := testAuthorized }

/-- A concrete context: certificates are the signature bytes themselves,
every certificate parses to the test registration, the challenge is the
transcript, keys are fixed bytes. -/
def testCtx : Ctx :=
  { coseVerify := fun ra _ _ => .ok ra
    fromCertificate := fun _ => .ok (some (.readerAuth testRegistration))
    serializeChallenge := fun t _ => t
    sessionTranscriptNew := fun _ _ _ => some [1]
    sessionKeyNew := fun _ _ _ u => .ok (match u with | .reader => [2] | .device => [3])
    pubkeyOf := fun k => k
    signCose := fun _ c => c }

/-- Doc request for type X, attribute a, unsigned. -/
def reqX : DocRequest :=
  { items_request :=
      { doc_type := "X", name_spaces := [("ns", [("a", false)])], request_info := none }
    reader_auth := none }

/-- Doc request for type Y, attribute z, unsigned. -/
def reqY : DocRequest :=
  { items_request :=
      { doc_type := "Y", name_spaces := [("ns", [("z", false)])], request_info := none }
    reader_auth := none }

/-- The same two doc requests, both signed by certificate [10]. -/
def reqXsigned : DocRequest := { reqX with reader_auth := some [10] }
def reqYsigned : DocRequest := { reqY with reader_auth := some [10] }

def exReq : DeviceRequest :=
  { version := .v1_0, doc_requests := [reqX, reqY], return_url := none }

def exReqSigned : DeviceRequest :=
  { version := .v1_0, doc_requests := [reqXsigned, reqYsigned], return_url := none }

/-- An X mdoc holding attributes a and c — it satisfies the request. -/
def mdocX1 : Mdoc :=
  { doc_type := "X"
    issuer_signed :=
      { name_spaces := some [("ns", [⟨"a", "va"⟩, ⟨"c", "vc"⟩])], issuer_auth := [9] }
    private_key_id := "k1" }

/-- An X mdoc holding only attribute b — it misses attribute a. -/
def mdocX2 : Mdoc :=
  { doc_type := "X"
    issuer_signed := { name_spaces := some [("ns", [⟨"b", "vb"⟩])], issuer_auth := [8] }
    private_key_id := "k2" }

/-- A Y mdoc holding attribute z. -/
def mdocY1 : Mdoc :=
  { doc_type := "Y"
    issuer_signed := { name_spaces := some [("ns", [⟨"z", "vz"⟩])], issuer_auth := [7] }
    private_key_id := "k3" }

/-- A reader engagement with one connection method and a public key. -/
def exReaderEngagement : ReaderEngagement :=
  { version := .v1_0
    security := some [5]
    connection_methods := some [{ connection_options := { uri := "https://verifier.example/" } }]
    origin_infos := [] }

/-- A doc request for type X that requests no attributes at all. -/
def reqEmptyX : DocRequest :=
  { items_request := { doc_type := "X", name_spaces := [], request_info := none }
    reader_auth := none }

def exReq9 : DeviceRequest :=
  { version := .v1_0, doc_requests := [reqEmptyX], return_url := none }

/-- One signed and one unsigned doc request. -/
def mixedReq : DeviceRequest :=
  { version := .v1_0, doc_requests := [reqXsigned, reqY], return_url := none }

def wReqXonly : DeviceRequest :=
  { version := .v1_0, doc_requests := [reqXsigned], return_url := none }

def wReqXunsigned : DeviceRequest :=
  { version := .v1_0, doc_requests := [reqX], return_url := none }

/-- A second satisfying X mdoc (another candidate). -/
def mdocX1b : Mdoc :=
  { doc_type := "X"
    issuer_signed := { name_spaces := some [("ns", [⟨"a", "va2"⟩])], issuer_auth := [6] }
    private_key_id := "k4" }

def wPost : DeviceEngagement → Outcome SessionData := fun _ => .ok [4]

def wDecryptAllNone : SessionData → SessionKey → Outcome DeviceRequest :=
  fun _ _ => .ok exReq

def wDecryptXonly : SessionData → SessionKey → Outcome DeviceRequest :=
  fun _ _ => .ok wReqXonly

def wDecryptSigned : SessionData → SessionKey → Outcome DeviceRequest :=
  fun _ _ => .ok exReqSigned

def wRetrieve : DocType → Option (List MdocCopies) :=
  fun d => if d = "X" then some [{ cred_copies := [mdocX1] }] else none

/-- The Y doc request signed by a different certificate, [11]. -/
def reqYsigned11 : DocRequest := { reqY with reader_auth := some [11] }

/-- Two doc requests signed by different certificates. -/
def diffCertReq : DeviceRequest :=
  { version := .v1_0, doc_requests := [reqXsigned, reqYsigned11], return_url := none }

/-- The response `Wallet::disclose` produces for `wReqXunsigned` over
`wRetrieve` in `testCtx`. -/
def wResp : DeviceResponse :=
  { version := .v1_0
    documents := some
      [{ doc_type := "X"
         issuer_signed :=
           { name_spaces := some [("ns", [⟨"a", "va"⟩])], issuer_auth := [9] }
         device_signed := { name_spaces := [], device_auth := .deviceSignature [1] }
         errors := none }]
    document_errors := none
    status := 0 }

/-- The session a successful start over `wReqXonly` and `[[mdocX1]]`
produces. -/
def wSession : DisclosureSession :=
  { return_url := none
    verifier_url := "https://verifier.example/"
    device_key := [3]
    proposed_documents :=
      [{ private_key_id := "k1"
         doc_type := "X"
         issuer_signed :=
           { name_spaces := some [("ns", [⟨"a", "va"⟩])], issuer_auth := [9] }
         device_signed_challenge := [1] }]
    reader_registration := testRegistration }

/-- The two-candidate map that matching `wReqXonly` against
`[[mdocX1, mdocX1b]]` produces. -/
def wCandsX : List (DocType × List ProposedDocument) :=
  [("X",
    [ProposedDocument.from_mdoc mdocX1
        (reqGet wReqXonly.requestedAttributesByDocType "X") [1],
      ProposedDocument.from_mdoc mdocX1b
        (reqGet wReqXonly.requestedAttributesByDocType "X") [1]])]

end Disclosure

/-! # Theorems -/

namespace Disclosure

namespace Outcome

@[simp] theorem bind_ok (a : α) (f : α → Outcome β) :
    bind (.ok a) f = f a := rfl

@[simp] theorem bind_error (e : MError) (f : α → Outcome β) :
    bind (.error e) f = .error e := rfl

@[simp] theorem bind_panic (m : String) (f : α → Outcome β) :
    bind (.panic m) f = .panic m := rfl

theorem bind_eq_ok {x : Outcome α} {f : α → Outcome β} {b : β}
    (h : bind x f = .ok b) : ∃ a, x = .ok a ∧ f a = .ok b := by
  cases x with
  | panic m => simp [bind] at h
  | error e => simp [bind] at h
  | ok a => exact ⟨a, rfl, h⟩

theorem bind_ne_panic {x : Outcome α} {f : α → Outcome β}
    (hx : ∀ m, x ≠ .panic m) (hf : ∀ a m, f a ≠ .panic m) :
    ∀ m, bind x f ≠ .panic m := by
  intro m
  cases x with
  | panic m' => exact absurd rfl (hx m')
  | error e => simp [bind]
  | ok a => exact hf a m

end Outcome

/-! ## Association-list lemmas -/

theorem removeEntry_eq (l : List (DocType × α)) (k : DocType) :
    removeEntry l k = (aLookup l k).map fun v => ((k, v), eraseKey l k) := by
  induction l with
  | nil => rfl
  | cons p rest ih =>
    obtain ⟨d, v⟩ := p
    by_cases hd : d = k
    · subst hd
      simp [removeEntry, aLookup, eraseKey]
    · simp only [removeEntry, aLookup, eraseKey, if_neg hd, ih]
      cases aLookup rest k <;> simp

theorem aLookup_eraseKey_of_ne {d k : DocType} (l : List (DocType × α))
    (h : d ≠ k) : aLookup (eraseKey l k) d = aLookup l d := by
  induction l with
  | nil => rfl
  | cons p rest ih =>
    obtain ⟨d', v⟩ := p
    by_cases hd : d' = k
    · subst hd
      rw [eraseKey, if_pos rfl, aLookup, if_neg (Ne.symm h)]
    · rw [eraseKey, if_neg hd, aLookup, aLookup]
      by_cases hdd : d' = d
      · rw [if_pos hdd, if_pos hdd]
      · rw [if_neg hdd, if_neg hdd, ih]

theorem eraseKey_sublist (l : List (DocType × α)) (k : DocType) :
    (eraseKey l k).Sublist l := by
  induction l with
  | nil => simp [eraseKey]
  | cons p rest ih =>
    obtain ⟨d, v⟩ := p
    by_cases hd : d = k
    · rw [eraseKey, if_pos hd]
      exact List.sublist_cons_self _ _
    · rw [eraseKey, if_neg hd]
      exact ih.cons₂ _

theorem mem_keys_of_mem_keys_eraseKey {l : List (DocType × α)} {k d : DocType}
    (h : d ∈ (eraseKey l k).map Prod.fst) : d ∈ l.map Prod.fst :=
  ((eraseKey_sublist l k).map Prod.fst).mem h

theorem aLookup_eq_none_iff (l : List (DocType × α)) (k : DocType) :
    aLookup l k = none ↔ k ∉ l.map Prod.fst := by
  induction l with
  | nil => simp [aLookup]
  | cons p rest ih =>
    obtain ⟨d, v⟩ := p
    by_cases hd : d = k
    · subst hd
      simp [aLookup]
    · simp [aLookup, hd, ih, Ne.symm hd]

theorem aLookup_isSome_of_mem_keys {l : List (DocType × α)} {k : DocType}
    (h : k ∈ l.map Prod.fst) : ∃ v, aLookup l k = some v := by
  cases hv : aLookup l k with
  | none => exact absurd h ((aLookup_eq_none_iff l k).mp hv)
  | some v => exact ⟨v, rfl⟩

theorem nodup_keys_eraseKey {l : List (DocType × α)} (k : DocType)
    (h : (l.map Prod.fst).Nodup) : ((eraseKey l k).map Prod.fst).Nodup :=
  ((eraseKey_sublist l k).map Prod.fst).nodup h

theorem eraseKey_eq_filter_of_nodup {l : List (DocType × α)} (k : DocType)
    (h : (l.map Prod.fst).Nodup) :
    eraseKey l k = l.filter fun p => decide (p.1 ≠ k) := by
  induction l with
  | nil => rfl
  | cons p rest ih =>
    obtain ⟨d, v⟩ := p
    simp only [List.map_cons, List.nodup_cons] at h
    by_cases hd : d = k
    · subst hd
      have hfil : List.filter (fun p => decide (p.1 ≠ d)) rest = rest := by
        apply List.filter_eq_self.mpr
        intro q hq
        simp only [decide_eq_true_eq]
        intro hqd
        exact h.1 (hqd ▸ List.mem_map_of_mem Prod.fst hq)
      rw [eraseKey, if_pos rfl, List.filter_cons_of_neg (by simp), hfil]
    · rw [eraseKey, if_neg hd, ih h.2,
        List.filter_cons_of_pos (by simp [hd])]

theorem not_mem_keys_eraseKey_self {l : List (DocType × α)} (k : DocType)
    (h : (l.map Prod.fst).Nodup) : k ∉ (eraseKey l k).map Prod.fst := by
  rw [eraseKey_eq_filter_of_nodup k h]
  intro hmem
  obtain ⟨p, hp, hpk⟩ := List.mem_map.mp hmem
  have := List.of_mem_filter hp
  simp only [decide_eq_true_eq] at this
  exact this hpk

/-! ## Requested-attributes map lemmas -/

theorem mem_insertDedup [DecidableEq α] {s : List α} {a x : α} :
    x ∈ insertDedup s a ↔ x ∈ s ∨ x = a := by
  unfold insertDedup
  by_cases h : a ∈ s
  · simp only [if_pos h]
    constructor
    · exact .inl
    · rintro (hx | rfl)
      · exact hx
      · exact h
  · simp [if_neg h]

theorem mapInsert_cons_pos {rest : List (DocType × List AttributeIdentifier)}
    {s : List AttributeIdentifier} {d : DocType} {ai : AttributeIdentifier}
    (h : d = ai.doc_type) :
    mapInsert ((d, s) :: rest) ai = (d, insertDedup s ai) :: rest := by
  simp [mapInsert, h]

theorem mapInsert_cons_neg {rest : List (DocType × List AttributeIdentifier)}
    {s : List AttributeIdentifier} {d : DocType} {ai : AttributeIdentifier}
    (h : ¬ d = ai.doc_type) :
    mapInsert ((d, s) :: rest) ai = (d, s) :: mapInsert rest ai := by
  simp [mapInsert, h]

theorem mem_keys_mapInsert {m : List (DocType × List AttributeIdentifier)}
    {ai : AttributeIdentifier} {d : DocType} :
    d ∈ (mapInsert m ai).map Prod.fst ↔ d ∈ m.map Prod.fst ∨ d = ai.doc_type := by
  induction m with
  | nil => simp [mapInsert]
  | cons p rest ih =>
    obtain ⟨d', s⟩ := p
    by_cases hd : d' = ai.doc_type
    · rw [mapInsert_cons_pos hd]
      simp only [List.map_cons, List.mem_cons]
      rw [hd]
      tauto
    · rw [mapInsert_cons_neg hd]
      simp only [List.map_cons, List.mem_cons, ih]
      tauto

theorem reqGet_mapInsert (m : List (DocType × List AttributeIdentifier))
    (ai : AttributeIdentifier) (d : DocType) :
    reqGet (mapInsert m ai) d =
      if ai.doc_type = d then insertDedup (reqGet m d) ai else reqGet m d := by
  induction m with
  | nil =>
    by_cases h : ai.doc_type = d <;>
      simp [mapInsert, reqGet, aLookup, h, insertDedup]
  | cons p rest ih =>
    obtain ⟨d', s⟩ := p
    by_cases hd : d' = ai.doc_type
    · rw [mapInsert_cons_pos hd]
      by_cases hdd : d' = d
      · subst hdd
        rw [reqGet, aLookup, if_pos rfl, reqGet, aLookup, if_pos rfl,
          if_pos hd.symm]
        rfl
      · have hne : ¬ ai.doc_type = d := fun h => hdd (hd.trans h)
        rw [reqGet, aLookup, if_neg hdd, reqGet, aLookup, if_neg hdd, if_neg hne]
    · rw [mapInsert_cons_neg hd]
      by_cases hdd : d' = d
      · subst hdd
        have hne : ¬ ai.doc_type = d' := fun h => hd h.symm
        rw [reqGet, aLookup, if_pos rfl, reqGet, aLookup, if_pos rfl, if_neg hne]
      · rw [reqGet, aLookup, if_neg hdd]
        conv_rhs => rw [reqGet, aLookup, if_neg hdd]
        rw [reqGet] at ih
        rw [ih]
        by_cases h : ai.doc_type = d
        · rw [if_pos h, if_pos h, reqGet]
        · rw [if_neg h, if_neg h, reqGet]

theorem nodup_keys_mapInsert {m : List (DocType × List AttributeIdentifier)}
    (ai : AttributeIdentifier) (h : (m.map Prod.fst).Nodup) :
    ((mapInsert m ai).map Prod.fst).Nodup := by
  induction m with
  | nil => simp [mapInsert]
  | cons p rest ih =>
    obtain ⟨d', s⟩ := p
    simp only [List.map_cons, List.nodup_cons] at h
    by_cases hd : d' = ai.doc_type
    · rw [mapInsert_cons_pos hd]
      simp only [List.map_cons, List.nodup_cons]
      exact ⟨h.1, h.2⟩
    · rw [mapInsert_cons_neg hd]
      simp only [List.map_cons, List.nodup_cons]
      refine ⟨fun hmem => ?_, ih h.2⟩
      rcases mem_keys_mapInsert.mp hmem with h' | h'
      · exact h.1 h'
      · exact hd h'

theorem mem_keys_foldl_mapInsert {m : List (DocType × List AttributeIdentifier)}
    {ais : List AttributeIdentifier} {d : DocType} :
    d ∈ (ais.foldl mapInsert m).map Prod.fst ↔
      d ∈ m.map Prod.fst ∨ ∃ ai ∈ ais, ai.doc_type = d := by
  induction ais generalizing m with
  | nil => simp
  | cons a rest ih =>
    simp only [List.foldl_cons, ih, mem_keys_mapInsert, List.mem_cons]
    constructor
    · rintro ((h | h) | ⟨ai, hai, h⟩)
      · exact Or.inl h
      · exact Or.inr ⟨a, Or.inl rfl, h.symm⟩
      · exact Or.inr ⟨ai, Or.inr hai, h⟩
    · rintro (h | ⟨ai, rfl | hai, h⟩)
      · exact Or.inl (Or.inl h)
      · exact Or.inl (Or.inr h.symm)
      · exact Or.inr ⟨ai, hai, h⟩

theorem mem_reqGet_foldl_mapInsert {m : List (DocType × List AttributeIdentifier)}
    {ais : List AttributeIdentifier} {d : DocType} {x : AttributeIdentifier} :
    x ∈ reqGet (ais.foldl mapInsert m) d ↔
      x ∈ reqGet m d ∨ (x ∈ ais ∧ x.doc_type = d) := by
  induction ais generalizing m with
  | nil => simp
  | cons a rest ih =>
    simp only [List.foldl_cons, ih, reqGet_mapInsert, List.mem_cons]
    by_cases h : a.doc_type = d
    · rw [if_pos h]
      simp only [mem_insertDedup]
      constructor
      · rintro ((hx | hx) | ⟨hx, hxd⟩)
        · exact Or.inl hx
        · exact Or.inr ⟨Or.inl hx, hx ▸ h⟩
        · exact Or.inr ⟨Or.inr hx, hxd⟩
      · rintro (hx | ⟨rfl | hx, hxd⟩)
        · exact Or.inl (Or.inl hx)
        · exact Or.inl (Or.inr rfl)
        · exact Or.inr ⟨hx, hxd⟩
    · rw [if_neg h]
      constructor
      · rintro (hx | ⟨hx, hxd⟩)
        · exact Or.inl hx
        · exact Or.inr ⟨Or.inr hx, hxd⟩
      · rintro (hx | ⟨rfl | hx, hxd⟩)
        · exact Or.inl hx
        · exact absurd hxd h
        · exact Or.inr ⟨hx, hxd⟩

theorem nodup_keys_foldl_mapInsert {m : List (DocType × List AttributeIdentifier)}
    (ais : List AttributeIdentifier) (h : (m.map Prod.fst).Nodup) :
    ((ais.foldl mapInsert m).map Prod.fst).Nodup := by
  induction ais generalizing m with
  | nil => exact h
  | cons a rest ih => exact ih (nodup_keys_mapInsert a h)

/-- The keys of the requested-attributes map are exactly the doctypes
with at least one requested identifier. -/
theorem mem_keys_requested {dr : DeviceRequest} {d : DocType} :
    d ∈ dr.requestedAttributesByDocType.map Prod.fst ↔
      ∃ ai ∈ dr.attribute_identifiers, ai.doc_type = d := by
  unfold DeviceRequest.requestedAttributesByDocType
  rw [mem_keys_foldl_mapInsert]
  simp

/-- The requested set stored for a doctype holds exactly the requested
identifiers of that doctype. -/
theorem mem_reqGet_requested {dr : DeviceRequest} {d : DocType}
    {x : AttributeIdentifier} :
    x ∈ reqGet dr.requestedAttributesByDocType d ↔
      x ∈ dr.attribute_identifiers ∧ x.doc_type = d := by
  unfold DeviceRequest.requestedAttributesByDocType
  rw [mem_reqGet_foldl_mapInsert]
  simp [reqGet, aLookup]

theorem nodup_keys_requested (dr : DeviceRequest) :
    (dr.requestedAttributesByDocType.map Prod.fst).Nodup :=
  nodup_keys_foldl_mapInsert _ (by simp)

/-! ## Candidates and missing attributes per group -/

/-- The missing-attribute record of an mdoc is empty exactly when the
mdoc satisfies the requested set (R ⊆ A). -/
theorem filter_not_mem_isEmpty_eq_all (R A : List AttributeIdentifier) :
    (R.filter fun ai => decide (ai ∉ A)).isEmpty = R.all fun ai => decide (ai ∈ A) := by
  induction R with
  | nil => rfl
  | cons a rest ih =>
    by_cases h : a ∈ A
    · rw [List.filter_cons_of_neg (by simp [h]), ih, List.all_cons]
      simp [h]
    · rw [List.filter_cons_of_pos (by simp [h]), List.all_cons]
      simp [h]

/-- Closed form of
`ProposedDocument::candidates_and_missing_attributes_from_mdocs`: the
proposals of the satisfying mdocs and the missing records of the
non-satisfying ones, both in input order. -/
theorem cam_eq (g : List Mdoc) (R : List AttributeIdentifier) (c : Bytes) :
    ProposedDocument.candidates_and_missing_attributes_from_mdocs g R c =
      ((g.filter fun m => mdocSatisfies m R).map
          fun m => ProposedDocument.from_mdoc m R c,
        (g.filter fun m => !mdocSatisfies m R).map fun m =>
          R.filter fun ai =>
            decide (ai ∉ m.issuer_signed.attribute_identifiers m.doc_type)) := by
  induction g with
  | nil => rfl
  | cons m rest ih =>
    simp only [ProposedDocument.candidates_and_missing_attributes_from_mdocs, ih]
    rw [show (R.filter fun ai =>
        decide (ai ∉ m.issuer_signed.attribute_identifiers m.doc_type)).isEmpty
        = mdocSatisfies m R from filter_not_mem_isEmpty_eq_all _ _]
    by_cases hs : mdocSatisfies m R
    · simp [hs]
    · simp [hs]

theorem cam_fst (g : List Mdoc) (R : List AttributeIdentifier) (c : Bytes) :
    (ProposedDocument.candidates_and_missing_attributes_from_mdocs g R c).1 =
      (g.filter fun m => mdocSatisfies m R).map
        fun m => ProposedDocument.from_mdoc m R c := by
  rw [cam_eq]

theorem cam_snd (g : List Mdoc) (R : List AttributeIdentifier) (c : Bytes) :
    (ProposedDocument.candidates_and_missing_attributes_from_mdocs g R c).2 =
      (g.filter fun m => !mdocSatisfies m R).map fun m =>
        R.filter fun ai =>
          decide (ai ∉ m.issuer_signed.attribute_identifiers m.doc_type) := by
  rw [cam_eq]

theorem cam_fst_mem {g : List Mdoc} {R : List AttributeIdentifier} {c : Bytes}
    {pd : ProposedDocument} :
    pd ∈ (ProposedDocument.candidates_and_missing_attributes_from_mdocs g R c).1 ↔
      ∃ m ∈ g, mdocSatisfies m R ∧ pd = ProposedDocument.from_mdoc m R c := by
  rw [cam_fst]
  simp only [List.mem_map, List.mem_filter]
  constructor
  · rintro ⟨m, ⟨hm, hs⟩, rfl⟩
    exact ⟨m, hm, hs, rfl⟩
  · rintro ⟨m, hm, hs, rfl⟩
    exact ⟨m, ⟨hm, hs⟩, rfl⟩

theorem cam_fst_ne_nil {g : List Mdoc} {R : List AttributeIdentifier} {c : Bytes} :
    (ProposedDocument.candidates_and_missing_attributes_from_mdocs g R c).1 ≠ [] ↔
      ∃ m ∈ g, mdocSatisfies m R := by
  rw [cam_fst]
  simp only [ne_eq, List.map_eq_nil_iff, List.filter_eq_nil_iff]
  push_neg
  constructor
  · rintro ⟨m, hm, hs⟩
    exact ⟨m, hm, by simpa using hs⟩
  · rintro ⟨m, hm, hs⟩
    exact ⟨m, hm, by simpa using hs⟩

theorem cam_snd_head (g : List Mdoc) (R : List AttributeIdentifier) (c : Bytes) :
    (ProposedDocument.candidates_and_missing_attributes_from_mdocs g R c).2.head? =
      ((g.filter fun m => !mdocSatisfies m R).head?).map fun m =>
        R.filter fun ai =>
          decide (ai ∉ m.issuer_signed.attribute_identifiers m.doc_type) := by
  rw [cam_snd, List.head?_map]

/-- The `flat_map`-with-`Option` namespace filter inside `from_mdoc`
agrees with the spec-side intersection (map the intersection over all
namespaces, then drop the empty ones). -/
theorem filterMap_intersection (docType : DocType) (R : List AttributeIdentifier)
    (nss : IssuerNameSpaces) :
    (nss.filterMap fun p =>
        if (List.filter (fun a =>
            decide ((⟨docType, p.1, a.element_identifier⟩ : AttributeIdentifier) ∈ R))
            p.2).isEmpty then none
        else some (p.1, List.filter (fun a =>
          decide ((⟨docType, p.1, a.element_identifier⟩ : AttributeIdentifier) ∈ R)) p.2))
      = specIntersection docType nss R := by
  induction nss with
  | nil => rfl
  | cons p rest ih =>
    rw [List.filterMap_cons]
    unfold specIntersection
    rw [List.map_cons]
    by_cases hattr : (List.filter (fun a =>
        decide ((⟨docType, p.1, a.element_identifier⟩ : AttributeIdentifier) ∈ R)) p.2) = []
    · rw [hattr, List.filter_cons_of_neg (by simp)]
      rw [show ((([] : Attributes)).isEmpty : Bool) = true from rfl, if_pos rfl]
      rw [ih]
      rfl
    · rw [if_neg (by simp [hattr]), List.filter_cons_of_pos (by simp [hattr])]
      rw [ih]
      rfl

theorem from_mdoc_name_spaces (m : Mdoc) (R : List AttributeIdentifier) (c : Bytes) :
    (ProposedDocument.from_mdoc m R c).issuer_signed.name_spaces =
      m.issuer_signed.name_spaces.map fun nss => specIntersection m.doc_type nss R := by
  cases hn : m.issuer_signed.name_spaces with
  | none => simp [ProposedDocument.from_mdoc, hn]
  | some nss =>
    simp only [ProposedDocument.from_mdoc, hn, Option.map_some']
    rw [← filterMap_intersection m.doc_type R nss]

/-! ## The matching loop -/

theorem matchLoop_nil (ctx : Ctx) (t : SessionTranscript)
    (reqMap : List (DocType × List AttributeIdentifier)) :
    matchLoop ctx t [] reqMap = .ok ([], [], reqMap) := rfl

theorem matchLoop_cons_empty (ctx : Ctx) (t : SessionTranscript)
    (rest : List (List Mdoc)) (reqMap : List (DocType × List AttributeIdentifier)) :
    matchLoop ctx t ([] :: rest) reqMap = matchLoop ctx t rest reqMap := rfl

theorem matchLoop_cons_not_found (ctx : Ctx) (t : SessionTranscript)
    (m0 : Mdoc) (g' : List Mdoc) (rest : List (List Mdoc))
    (reqMap : List (DocType × List AttributeIdentifier))
    (h : removeEntry reqMap m0.doc_type = none) :
    matchLoop ctx t ((m0 :: g') :: rest) reqMap =
      .panic "Received mdoc candidate with unexpected doc_type from storage" := by
  unfold matchLoop
  rw [h]

theorem matchLoop_cons_inconsistent (ctx : Ctx) (t : SessionTranscript)
    (m0 : Mdoc) (g' : List Mdoc) (rest : List (List Mdoc))
    (reqMap rem : List (DocType × List AttributeIdentifier))
    (t0 : DocType) (R : List AttributeIdentifier)
    (h : removeEntry reqMap m0.doc_type = some ((t0, R), rem))
    (hall : ((m0 :: g').all fun mdoc => decide (mdoc.doc_type = t0)) = false) :
    matchLoop ctx t ((m0 :: g') :: rest) reqMap =
      .panic "Received mdoc candidate with inconsistent doc_type from storage" := by
  unfold matchLoop
  rw [h]
  simp only [hall, Bool.false_eq_true, if_false]

theorem matchLoop_cons_step (ctx : Ctx) (t : SessionTranscript)
    (m0 : Mdoc) (g' : List Mdoc) (rest : List (List Mdoc))
    (reqMap rem : List (DocType × List AttributeIdentifier))
    (t0 : DocType) (R : List AttributeIdentifier)
    (h : removeEntry reqMap m0.doc_type = some ((t0, R), rem))
    (hall : ((m0 :: g').all fun mdoc => decide (mdoc.doc_type = t0)) = true) :
    matchLoop ctx t ((m0 :: g') :: rest) reqMap =
      (matchLoop ctx t rest rem).bind fun out =>
        .ok ((t0,
            (ProposedDocument.candidates_and_missing_attributes_from_mdocs (m0 :: g') R
              (ctx.serializeChallenge t t0)).1) :: out.1,
          (match (ProposedDocument.candidates_and_missing_attributes_from_mdocs (m0 :: g') R
              (ctx.serializeChallenge t t0)).2.head? with
           | some mrec => mrec :: out.2.1
           | none => out.2.1),
          out.2.2) := by
  conv_lhs => unfold matchLoop
  rw [h]
  simp only [hall, if_true]

theorem mem_keys_eraseKey_of_ne {l : List (DocType × α)} {d k : DocType}
    (hne : d ≠ k) (h : d ∈ l.map Prod.fst) : d ∈ (eraseKey l k).map Prod.fst := by
  by_contra hmem
  have := (aLookup_eq_none_iff (eraseKey l k) d).mpr hmem
  rw [aLookup_eraseKey_of_ne l hne] at this
  exact absurd h ((aLookup_eq_none_iff l d).mp this)

@[simp] theorem groupDocTypes_nil : groupDocTypes [] = [] := rfl

@[simp] theorem groupDocTypes_cons_empty (rest : List (List Mdoc)) :
    groupDocTypes ([] :: rest) = groupDocTypes rest := rfl

@[simp] theorem groupDocTypes_cons (m0 : Mdoc) (g' : List Mdoc)
    (rest : List (List Mdoc)) :
    groupDocTypes ((m0 :: g') :: rest) = m0.doc_type :: groupDocTypes rest := rfl

@[simp] theorem specCands_nil (ctx : Ctx) (t : SessionTranscript)
    (reqMap : List (DocType × List AttributeIdentifier)) :
    specCands ctx t reqMap [] = [] := rfl

@[simp] theorem specCands_cons_empty (ctx : Ctx) (t : SessionTranscript)
    (reqMap : List (DocType × List AttributeIdentifier)) (rest : List (List Mdoc)) :
    specCands ctx t reqMap ([] :: rest) = specCands ctx t reqMap rest := rfl

@[simp] theorem specCands_cons (ctx : Ctx) (t : SessionTranscript)
    (reqMap : List (DocType × List AttributeIdentifier)) (m0 : Mdoc)
    (g' : List Mdoc) (rest : List (List Mdoc)) :
    specCands ctx t reqMap ((m0 :: g') :: rest) =
      (m0.doc_type,
        (ProposedDocument.candidates_and_missing_attributes_from_mdocs (m0 :: g')
          (reqGet reqMap m0.doc_type)
          (ctx.serializeChallenge t m0.doc_type)).1) :: specCands ctx t reqMap rest := rfl

@[simp] theorem specMissingRecords_nil (ctx : Ctx) (t : SessionTranscript)
    (reqMap : List (DocType × List AttributeIdentifier)) :
    specMissingRecords ctx t reqMap [] = [] := rfl

@[simp] theorem specMissingRecords_cons_empty (ctx : Ctx) (t : SessionTranscript)
    (reqMap : List (DocType × List AttributeIdentifier)) (rest : List (List Mdoc)) :
    specMissingRecords ctx t reqMap ([] :: rest) =
      specMissingRecords ctx t reqMap rest := rfl

theorem specMissingRecords_cons (ctx : Ctx) (t : SessionTranscript)
    (reqMap : List (DocType × List AttributeIdentifier)) (m0 : Mdoc)
    (g' : List Mdoc) (rest : List (List Mdoc)) :
    specMissingRecords ctx t reqMap ((m0 :: g') :: rest) =
      (match (ProposedDocument.candidates_and_missing_attributes_from_mdocs (m0 :: g')
          (reqGet reqMap m0.doc_type)
          (ctx.serializeChallenge t m0.doc_type)).2.head? with
       | some mrec => mrec :: specMissingRecords ctx t reqMap rest
       | none => specMissingRecords ctx t reqMap rest) := by
  unfold specMissingRecords
  rw [List.filterMap_cons]
  cases hrec : (ProposedDocument.candidates_and_missing_attributes_from_mdocs (m0 :: g')
      (reqGet reqMap m0.doc_type) (ctx.serializeChallenge t m0.doc_type)).2.head? with
  | none => simp [hrec]
  | some mrec => simp [hrec]

@[simp] theorem eraseKeysAll_nil (reqMap : List (DocType × List AttributeIdentifier)) :
    eraseKeysAll reqMap [] = reqMap := rfl

@[simp] theorem eraseKeysAll_cons_empty (reqMap : List (DocType × List AttributeIdentifier))
    (rest : List (List Mdoc)) :
    eraseKeysAll reqMap ([] :: rest) = eraseKeysAll reqMap rest := rfl

@[simp] theorem eraseKeysAll_cons (reqMap : List (DocType × List AttributeIdentifier))
    (m0 : Mdoc) (g' : List Mdoc) (rest : List (List Mdoc)) :
    eraseKeysAll reqMap ((m0 :: g') :: rest) =
      eraseKeysAll (eraseKey reqMap m0.doc_type) rest := rfl

theorem specCands_congr (ctx : Ctx) (t : SessionTranscript)
    {m1 m2 : List (DocType × List AttributeIdentifier)} (groups : List (List Mdoc))
    (h : ∀ d ∈ groupDocTypes groups, reqGet m1 d = reqGet m2 d) :
    specCands ctx t m1 groups = specCands ctx t m2 groups := by
  induction groups with
  | nil => rfl
  | cons g rest ih =>
    cases g with
    | nil =>
      rw [specCands_cons_empty, specCands_cons_empty]
      exact ih fun d hd => h d hd
    | cons m0 g' =>
      rw [specCands_cons, specCands_cons,
        h m0.doc_type (by simp)]
      rw [ih fun d hd => h d (by simp [hd])]

theorem specMissingRecords_congr (ctx : Ctx) (t : SessionTranscript)
    {m1 m2 : List (DocType × List AttributeIdentifier)} (groups : List (List Mdoc))
    (h : ∀ d ∈ groupDocTypes groups, reqGet m1 d = reqGet m2 d) :
    specMissingRecords ctx t m1 groups = specMissingRecords ctx t m2 groups := by
  induction groups with
  | nil => rfl
  | cons g rest ih =>
    cases g with
    | nil =>
      rw [specMissingRecords_cons_empty, specMissingRecords_cons_empty]
      exact ih fun d hd => h d hd
    | cons m0 g' =>
      rw [specMissingRecords_cons, specMissingRecords_cons,
        h m0.doc_type (by simp)]
      rw [ih fun d hd => h d (by simp [hd])]

theorem eraseKeysAll_eq_filter {reqMap : List (DocType × List AttributeIdentifier)}
    (groups : List (List Mdoc)) (hnd : (reqMap.map Prod.fst).Nodup) :
    eraseKeysAll reqMap groups =
      reqMap.filter fun p => decide (p.1 ∉ groupDocTypes groups) := by
  induction groups generalizing reqMap with
  | nil => simp
  | cons g rest ih =>
    cases g with
    | nil =>
      rw [eraseKeysAll_cons_empty, groupDocTypes_cons_empty, ih hnd]
    | cons m0 g' =>
      rw [eraseKeysAll_cons, ih (nodup_keys_eraseKey _ hnd),
        eraseKey_eq_filter_of_nodup _ hnd, List.filter_filter]
      apply List.filter_congr
      intro p _
      simp only [groupDocTypes_cons, List.mem_cons, decide_not]
      by_cases h1 : p.1 = m0.doc_type
      · simp [h1]
      · by_cases h2 : p.1 ∈ groupDocTypes rest <;> simp [h1, h2]

/-- Full characterization of a successful run of the matching loop:
the candidates per doctype, the retained missing records and the final
working map are the spec-side functions of the original map, and the
run certifies the facts the loop's sanity checks enforce (group types
were all requested, no doctype occurred twice, groups are uniform). -/
theorem matchLoop_ok_spec (ctx : Ctx) (t : SessionTranscript)
    {groups : List (List Mdoc)} {reqMap : List (DocType × List AttributeIdentifier)}
    {cs : List (DocType × List ProposedDocument)}
    {ms : List (List AttributeIdentifier)}
    {fin : List (DocType × List AttributeIdentifier)}
    (hnd : (reqMap.map Prod.fst).Nodup)
    (h : matchLoop ctx t groups reqMap = .ok (cs, ms, fin)) :
    cs = specCands ctx t reqMap groups ∧
    ms = specMissingRecords ctx t reqMap groups ∧
    fin = eraseKeysAll reqMap groups ∧
    (∀ d ∈ groupDocTypes groups, d ∈ reqMap.map Prod.fst) ∧
    (groupDocTypes groups).Nodup ∧
    (∀ g ∈ groups, ∀ m0, g.head? = some m0 → ∀ m ∈ g, m.doc_type = m0.doc_type) := by
  induction groups generalizing reqMap cs ms fin with
  | nil =>
    rw [matchLoop_nil] at h
    obtain ⟨h1, h2, h3⟩ : cs = [] ∧ ms = [] ∧ fin = reqMap := by
      have := h
      simp only [Outcome.ok.injEq, Prod.mk.injEq] at this
      exact ⟨this.1.symm, this.2.1.symm, this.2.2.symm⟩
    subst h1; subst h2; subst h3
    simp
  | cons g rest ih =>
    cases g with
    | nil =>
      rw [matchLoop_cons_empty] at h
      obtain ⟨h1, h2, h3, h4, h5, h6⟩ := ih hnd h
      refine ⟨by simpa using h1, by simpa using h2, by simpa using h3,
        by simpa using h4, by simpa using h5, ?_⟩
      intro g hg m0 hm0
      rcases List.mem_cons.mp hg with rfl | hg
      · simp at hm0
      · exact h6 g hg m0 hm0
    | cons m0 g' =>
      cases hre : removeEntry reqMap m0.doc_type with
      | none =>
        rw [matchLoop_cons_not_found ctx t m0 g' rest reqMap hre] at h
        exact absurd h (by simp)
      | some e =>
        obtain ⟨v, hv, he⟩ : ∃ v, aLookup reqMap m0.doc_type = some v ∧
            e = ((m0.doc_type, v), eraseKey reqMap m0.doc_type) := by
          have := removeEntry_eq reqMap m0.doc_type
          rw [hre] at this
          cases hl : aLookup reqMap m0.doc_type with
          | none => rw [hl] at this; exact absurd this.symm (by simp)
          | some v =>
            rw [hl] at this
            simp only [Option.map_some'] at this
            exact ⟨v, rfl, Option.some_inj.mp this⟩
        subst he
        have hreq : reqGet reqMap m0.doc_type = v := by
          rw [reqGet, hv]; rfl
        cases hall : (m0 :: g').all fun mdoc => decide (mdoc.doc_type = m0.doc_type) with
        | false =>
          rw [matchLoop_cons_inconsistent ctx t m0 g' rest reqMap
            (eraseKey reqMap m0.doc_type) m0.doc_type v hre hall] at h
          exact absurd h (by simp)
        | true =>
          rw [matchLoop_cons_step ctx t m0 g' rest reqMap
            (eraseKey reqMap m0.doc_type) m0.doc_type v hre hall] at h
          cases hrest : matchLoop ctx t rest (eraseKey reqMap m0.doc_type) with
          | panic msg => rw [hrest] at h; exact absurd h (by simp [Outcome.bind])
          | error e => rw [hrest] at h; exact absurd h (by simp [Outcome.bind])
          | ok out =>
            obtain ⟨cs', ms', fin'⟩ := out
            rw [hrest, Outcome.bind_ok] at h
            have hnd' : ((eraseKey reqMap m0.doc_type).map Prod.fst).Nodup :=
              nodup_keys_eraseKey _ hnd
            obtain ⟨h1, h2, h3, h4, h5, h6⟩ := ih hnd' hrest
            have hagree : ∀ d ∈ groupDocTypes rest,
                reqGet (eraseKey reqMap m0.doc_type) d = reqGet reqMap d := by
              intro d hd
              have hdk : d ≠ m0.doc_type := fun hdd =>
                not_mem_keys_eraseKey_self _ hnd (hdd ▸ h4 d hd)
              rw [reqGet, reqGet, aLookup_eraseKey_of_ne _ hdk]
            obtain ⟨hcs, hms, hfin⟩ :
                cs = (m0.doc_type,
                    (ProposedDocument.candidates_and_missing_attributes_from_mdocs
                      (m0 :: g') v (ctx.serializeChallenge t m0.doc_type)).1) :: cs' ∧
                ms = (match (ProposedDocument.candidates_and_missing_attributes_from_mdocs
                      (m0 :: g') v (ctx.serializeChallenge t m0.doc_type)).2.head? with
                    | some mrec => mrec :: ms'
                    | none => ms') ∧
                fin = fin' := by
              have := h
              simp only [Outcome.ok.injEq, Prod.mk.injEq] at this
              exact ⟨this.1.symm, this.2.1.symm, this.2.2.symm⟩
            refine ⟨?_, ?_, ?_, ?_, ?_, ?_⟩
            · rw [hcs, specCands_cons, hreq, h1,
                specCands_congr ctx t rest hagree]
            · rw [hms, specMissingRecords_cons ctx t reqMap m0 g' rest, hreq, h2,
                specMissingRecords_congr ctx t rest hagree]
            · rw [hfin, h3, eraseKeysAll_cons]
            · intro d hd
              rcases List.mem_cons.mp (by simpa using hd) with rfl | hd'
              · by_contra hnot
                rw [(aLookup_eq_none_iff reqMap m0.doc_type).mpr hnot] at hv
                exact Option.noConfusion hv
              · exact mem_keys_of_mem_keys_eraseKey (h4 d hd')
            · rw [groupDocTypes_cons]
              refine List.nodup_cons.mpr ⟨fun hmem => ?_, h5⟩
              exact not_mem_keys_eraseKey_self _ hnd (h4 _ hmem)
            · intro g hg mh hmh m hm
              rcases List.mem_cons.mp hg with rfl | hg'
              · have hmh' : m0 = mh := by simpa using hmh
                subst hmh'
                have := List.all_eq_true.mp hall m hm
                simpa using this
              · exact h6 g hg' mh hmh m hm

/-- Under the grouping contract (relative to the working map's keys),
the matching loop completes without a panic or error. -/
theorem matchLoop_ok_of_contract (ctx : Ctx) (t : SessionTranscript)
    {groups : List (List Mdoc)} {reqMap : List (DocType × List AttributeIdentifier)}
    (huni : ∀ g ∈ groups, ∀ m ∈ g, ∀ m' ∈ g, m.doc_type = m'.doc_type)
    (hmem : ∀ d ∈ groupDocTypes groups, d ∈ reqMap.map Prod.fst)
    (hndg : (groupDocTypes groups).Nodup) :
    ∃ out, matchLoop ctx t groups reqMap = .ok out := by
  induction groups generalizing reqMap with
  | nil => exact ⟨([], [], reqMap), matchLoop_nil ctx t reqMap⟩
  | cons g rest ih =>
    cases g with
    | nil =>
      rw [matchLoop_cons_empty]
      exact ih (fun g hg => huni g (List.mem_cons_of_mem _ hg))
        (fun d hd => hmem d (by simpa using hd)) (by simpa using hndg)
    | cons m0 g' =>
      have hm0 : m0.doc_type ∈ reqMap.map Prod.fst := hmem m0.doc_type (by simp)
      obtain ⟨v, hv⟩ := aLookup_isSome_of_mem_keys hm0
      have hre : removeEntry reqMap m0.doc_type =
          some ((m0.doc_type, v), eraseKey reqMap m0.doc_type) := by
        rw [removeEntry_eq, hv, Option.map_some']
      have hall : ((m0 :: g').all fun mdoc => decide (mdoc.doc_type = m0.doc_type)) = true := by
        rw [List.all_eq_true]
        intro m hm
        simpa using huni (m0 :: g') (by simp) m hm m0 (by simp)
      rw [matchLoop_cons_step ctx t m0 g' rest reqMap
        (eraseKey reqMap m0.doc_type) m0.doc_type v hre hall]
      have hndg' : (groupDocTypes rest).Nodup := by
        rw [groupDocTypes_cons] at hndg
        exact (List.nodup_cons.mp hndg).2
      have hnotin : m0.doc_type ∉ groupDocTypes rest := by
        rw [groupDocTypes_cons] at hndg
        exact (List.nodup_cons.mp hndg).1
      obtain ⟨out, hout⟩ := @ih (eraseKey reqMap m0.doc_type)
        (fun g hg => huni g (List.mem_cons_of_mem _ hg))
        (fun d hd => mem_keys_eraseKey_of_ne
          (fun hdd => hnotin (hdd ▸ hd)) (hmem d (by simp [hd])))
        hndg'
      rw [hout, Outcome.bind_ok]
      exact ⟨_, rfl⟩

/-- A contract violation in the source's result makes the loop abort the
process: some non-empty group names a doctype with no requested-attribute
entry, or holds mdocs of differing doctypes. -/
theorem matchLoop_panic_of_violation (ctx : Ctx) (t : SessionTranscript)
    {groups : List (List Mdoc)} {reqMap : List (DocType × List AttributeIdentifier)}
    (h : ∃ g ∈ groups, ∃ m0, g.head? = some m0 ∧
      (m0.doc_type ∉ reqMap.map Prod.fst ∨ ∃ m ∈ g, m.doc_type ≠ m0.doc_type)) :
    ∃ msg, matchLoop ctx t groups reqMap = .panic msg := by
  induction groups generalizing reqMap with
  | nil => simp at h
  | cons g rest ih =>
    cases g with
    | nil =>
      rw [matchLoop_cons_empty]
      apply ih
      obtain ⟨g, hg, m0, hm0, hbad⟩ := h
      rcases List.mem_cons.mp hg with rfl | hg'
      · exact absurd hm0 (by simp)
      · exact ⟨g, hg', m0, hm0, hbad⟩
    | cons m0 g' =>
      cases hre : removeEntry reqMap m0.doc_type with
      | none =>
        exact ⟨_, matchLoop_cons_not_found ctx t m0 g' rest reqMap hre⟩
      | some e =>
        obtain ⟨v, hv, he⟩ : ∃ v, aLookup reqMap m0.doc_type = some v ∧
            e = ((m0.doc_type, v), eraseKey reqMap m0.doc_type) := by
          have := removeEntry_eq reqMap m0.doc_type
          rw [hre] at this
          cases hl : aLookup reqMap m0.doc_type with
          | none => rw [hl] at this; exact absurd this (by simp)
          | some v =>
            rw [hl] at this
            simp only [Option.map_some'] at this
            exact ⟨v, rfl, Option.some_inj.mp this⟩
        subst he
        cases hall : (m0 :: g').all fun mdoc => decide (mdoc.doc_type = m0.doc_type) with
        | false =>
          exact ⟨_, matchLoop_cons_inconsistent ctx t m0 g' rest reqMap
            (eraseKey reqMap m0.doc_type) m0.doc_type v hre hall⟩
        | true =>
          rw [matchLoop_cons_step ctx t m0 g' rest reqMap
            (eraseKey reqMap m0.doc_type) m0.doc_type v hre hall]
          have hrest : ∃ g ∈ rest, ∃ mh, g.head? = some mh ∧
              (mh.doc_type ∉ (eraseKey reqMap m0.doc_type).map Prod.fst ∨
                ∃ m ∈ g, m.doc_type ≠ mh.doc_type) := by
            obtain ⟨g, hg, mh, hmh, hbad⟩ := h
            rcases List.mem_cons.mp hg with rfl | hg'
            · exfalso
              have hmh' : m0 = mh := by simpa using hmh
              rcases hbad with hnk | ⟨m, hm, hne⟩
              · rw [← hmh'] at hnk
                exact hnk ((aLookup_eq_none_iff reqMap m0.doc_type).not_left.mp
                  (by simp [hv]))
              · have := List.all_eq_true.mp hall m hm
                rw [← hmh'] at hne
                exact hne (by simpa using this)
            · refine ⟨g, hg', mh, hmh, ?_⟩
              rcases hbad with hnk | hbad2
              · exact Or.inl fun hmem =>
                  hnk (mem_keys_of_mem_keys_eraseKey hmem)
              · exact Or.inr hbad2
          obtain ⟨msg, hmsg⟩ := ih hrest
          rw [hmsg]
          exact ⟨msg, rfl⟩

/-! ## `match_stored_documents` -/

theorem match_stored_documents_eq (ctx : Ctx) (dr : DeviceRequest)
    (groups : List (List Mdoc)) (t : SessionTranscript) :
    dr.match_stored_documents ctx (.ok groups) t =
      (matchLoop ctx t groups dr.requestedAttributesByDocType).bind fun out =>
        if out.1.any (fun p => p.2.isEmpty) || !out.2.2.isEmpty then
          .ok (.missingAttributes (out.2.1.flatten ++ out.2.2.flatMap (·.2)))
        else
          .ok (.candidates out.1) := rfl

theorem match_stored_documents_source_error (ctx : Ctx) (dr : DeviceRequest)
    (t : SessionTranscript) :
    dr.match_stored_documents ctx (.error ()) t = .error (.holder .mdocDataSource) := rfl

/-- The reader of a successful match: the matching loop succeeded and
the outcome is decided by the emptiness tests. -/
theorem match_stored_documents_ok_inv {ctx : Ctx} {dr : DeviceRequest}
    {groups : List (List Mdoc)} {t : SessionTranscript} {r : DeviceRequestMatch}
    (h : dr.match_stored_documents ctx (.ok groups) t = .ok r) :
    ∃ cs ms fin, matchLoop ctx t groups dr.requestedAttributesByDocType = .ok (cs, ms, fin) ∧
      ((cs.any (fun p => p.2.isEmpty) || !fin.isEmpty) = true ∧
          r = .missingAttributes (ms.flatten ++ fin.flatMap (·.2)) ∨
        (cs.any (fun p => p.2.isEmpty) || !fin.isEmpty) = false ∧ r = .candidates cs) := by
  rw [match_stored_documents_eq] at h
  cases hml : matchLoop ctx t groups dr.requestedAttributesByDocType with
  | panic msg => rw [hml] at h; exact absurd h (by simp [Outcome.bind])
  | error e => rw [hml] at h; exact absurd h (by simp [Outcome.bind])
  | ok out =>
    obtain ⟨cs, ms, fin⟩ := out
    rw [hml, Outcome.bind_ok] at h
    refine ⟨cs, ms, fin, rfl, ?_⟩
    by_cases hc : (cs.any (fun p => p.2.isEmpty) || !fin.isEmpty) = true
    · rw [if_pos hc] at h
      exact Or.inl ⟨hc, by injection h with h'; exact h'.symm⟩
    · rw [if_neg hc] at h
      exact Or.inr ⟨Bool.eq_false_iff.mpr hc, by injection h with h'; exact h'.symm⟩

/-- The retained missing records agree with the spec-worded form (first
non-satisfying mdoc per group, its identifier difference). -/
theorem specMissingRecords_eq_specForm (ctx : Ctx) (t : SessionTranscript)
    (reqMap : List (DocType × List AttributeIdentifier)) (groups : List (List Mdoc)) :
    specMissingRecords ctx t reqMap groups =
      groups.filterMap fun g =>
        g.head?.bind fun m0 =>
          ((g.filter fun mdoc => !mdocSatisfies mdoc (reqGet reqMap m0.doc_type)).head?).map
            fun mdoc => (reqGet reqMap m0.doc_type).filter fun ai =>
              decide (ai ∉ mdoc.issuer_signed.attribute_identifiers mdoc.doc_type) := by
  unfold specMissingRecords
  apply List.filterMap_congr
  intro g _
  cases g with
  | nil => rfl
  | cons m0 g' =>
    simp only [List.head?_cons, Option.some_bind]
    rw [cam_snd_head]

/-- When matching returns `MissingAttributes`, the reported list is
exactly the spec-worded missing list. -/
theorem match_missing_eq_spec {ctx : Ctx} {dr : DeviceRequest}
    {groups : List (List Mdoc)} {t : SessionTranscript}
    {l : List AttributeIdentifier}
    (h : dr.match_stored_documents ctx (.ok groups) t = .ok (.missingAttributes l)) :
    l = specMissingList dr groups := by
  obtain ⟨cs, ms, fin, hml, hcase⟩ := match_stored_documents_ok_inv h
  rcases hcase with ⟨_, hr⟩ | ⟨_, hr⟩
  · obtain ⟨_, h2, h3, _, _, _⟩ :=
      matchLoop_ok_spec ctx t (nodup_keys_requested dr) hml
    have hl : l = ms.flatten ++ fin.flatMap (·.2) := by
      simpa using hr
    rw [hl, h2, h3, specMissingRecords_eq_specForm,
      eraseKeysAll_eq_filter groups (nodup_keys_requested dr)]
    rfl
  · exact absurd hr (by simp)

/-! ## Reader authentication lemmas -/

theorem docRequest_verify_of_none {ctx : Ctx} {t : SessionTranscript}
    {d : DocRequest} (h : d.reader_auth = none) : d.verify ctx t = .ok none := by
  unfold DocRequest.verify
  rw [h]

theorem docRequest_verify_auth_ne_none {ctx : Ctx} {t : SessionTranscript}
    {d : DocRequest} {c : Certificate}
    (h : d.verify ctx t = .ok (some c)) : d.reader_auth ≠ none := by
  intro hn
  rw [docRequest_verify_of_none hn] at h
  simp at h

theorem forall₂_verify_auth_ne_none (ctx : Ctx) (t : SessionTranscript)
    {l : List DocRequest} {certs : List Certificate}
    (h : List.Forall₂ (fun d c => DocRequest.verify ctx d t = .ok (some c)) l certs) :
    ∀ d ∈ l, d.reader_auth ≠ none := by
  induction h with
  | nil =>
    intro d hd
    simp at hd
  | @cons d' x rest cs hd' htl ih =>
    intro d hd
    rcases List.mem_cons.mp hd with rfl | hmem
    · exact docRequest_verify_auth_ne_none hd'
    · exact ih d hmem

theorem verifyFold_nil (ctx : Ctx) (t : SessionTranscript) (acc : Option Certificate) :
    verifyFold ctx t [] acc = .ok acc := rfl

theorem verifyFold_cons (ctx : Ctx) (t : SessionTranscript) (d : DocRequest)
    (rest : List DocRequest) (acc : Option Certificate) :
    verifyFold ctx t (d :: rest) acc =
      (d.verify ctx t).bind fun optCert =>
        match optCert with
        | none => .panic "called Option::unwrap on a None value"
        | some c =>
          match acc with
          | some rc =>
            if c = rc then verifyFold ctx t rest (some c)
            else .error (.holder .readerAuthsInconsistent)
          | none => verifyFold ctx t rest (some c) := rfl

theorem verifyFold_ok_of_all_eq (ctx : Ctx) (t : SessionTranscript)
    {l : List DocRequest} {certs : List Certificate} {c : Certificate}
    (h2 : List.Forall₂ (fun d x => DocRequest.verify ctx d t = .ok (some x)) l certs)
    (hall : ∀ x ∈ certs, x = c) :
    verifyFold ctx t l (some c) = .ok (some c) := by
  induction h2 with
  | nil => rfl
  | @cons d x rest cs hd htl ih =>
    rw [verifyFold_cons, hd, Outcome.bind_ok]
    have hx : x = c := hall x (by simp)
    subst hx
    show (if x = x then verifyFold ctx t rest (some x)
      else .error (.holder .readerAuthsInconsistent)) = .ok (some x)
    rw [if_pos rfl]
    exact ih fun y hy => hall y (by simp [hy])

theorem verifyFold_error_of_ne (ctx : Ctx) (t : SessionTranscript)
    {l : List DocRequest} {certs : List Certificate} {c : Certificate}
    (h2 : List.Forall₂ (fun d x => DocRequest.verify ctx d t = .ok (some x)) l certs)
    (hex : ∃ x ∈ certs, x ≠ c) :
    verifyFold ctx t l (some c) = .error (.holder .readerAuthsInconsistent) := by
  induction h2 with
  | nil => simp at hex
  | @cons d x rest cs hd htl ih =>
    rw [verifyFold_cons, hd, Outcome.bind_ok]
    show (if x = c then verifyFold ctx t rest (some x)
        else .error (.holder .readerAuthsInconsistent)) =
      .error (.holder .readerAuthsInconsistent)
    by_cases hx : x = c
    · subst hx
      rw [if_pos rfl]
      apply ih
      obtain ⟨y, hy, hyc⟩ := hex
      rcases List.mem_cons.mp hy with rfl | hy'
      · exact absurd rfl hyc
      · exact ⟨y, hy', hyc⟩
    · rw [if_neg hx]

theorem deviceRequest_verify_all_unsigned {ctx : Ctx} {t : SessionTranscript}
    {dr : DeviceRequest} (h : ∀ d ∈ dr.doc_requests, d.reader_auth = none) :
    dr.verify ctx t = .ok none := by
  unfold DeviceRequest.verify
  rw [if_pos]
  rw [List.all_eq_true]
  intro d hd
  simp [h d hd]

theorem deviceRequest_verify_mixed {ctx : Ctx} {t : SessionTranscript}
    {dr : DeviceRequest}
    (hsome : ∃ d ∈ dr.doc_requests, d.reader_auth ≠ none)
    (hnone : ∃ d ∈ dr.doc_requests, d.reader_auth = none) :
    dr.verify ctx t = .error (.holder .readerAuthMissing) := by
  unfold DeviceRequest.verify
  rw [if_neg, if_pos]
  · rw [List.any_eq_true]
    obtain ⟨d, hd, ha⟩ := hnone
    exact ⟨d, hd, by simp [ha]⟩
  · intro hcontra
    obtain ⟨d, hd, ha⟩ := hsome
    have := List.all_eq_true.mp hcontra d hd
    rw [Option.isNone_iff_eq_none] at this
    exact ha this

theorem deviceRequest_verify_all_signed {ctx : Ctx} {t : SessionTranscript}
    {dr : DeviceRequest}
    (hne : dr.doc_requests ≠ [])
    (hall : ∀ d ∈ dr.doc_requests, d.reader_auth ≠ none) :
    dr.verify ctx t =
      (verifyFold ctx t dr.doc_requests none).bind fun optCert =>
        match optCert with
        | none => .panic "called Option::unwrap on a None value"
        | some certificate =>
          (ctx.fromCertificate certificate).bind fun certType =>
            match certType with
            | some (.readerAuth reader_registration) =>
              (dr.verify_requested_attributes reader_registration).bind fun _ =>
                .ok (some reader_registration)
            | _ => .error (.holder (.noReaderRegistration certificate)) := by
  unfold DeviceRequest.verify
  rw [if_neg, if_neg]
  · rw [Bool.not_eq_true, List.any_eq_false]
    intro d hd
    simp [Option.isNone_iff_eq_none]
    exact hall d hd
  · intro hcontra
    obtain ⟨d, hd⟩ := List.exists_mem_of_ne_nil _ hne
    have := List.all_eq_true.mp hcontra d hd
    rw [Option.isNone_iff_eq_none] at this
    exact hall d hd this

/-- Reduction of `DisclosureSession::start` past its external stages:
with decoding, engagement, transport and decryption pinned by
hypotheses, `start` is the verification-and-matching tail. -/
theorem start_reduce (ctx : Ctx) (re : ReaderEngagement) (epriv : SecretKey)
    (post : DeviceEngagement → Outcome SessionData)
    (decrypt : SessionData → SessionKey → Outcome DeviceRequest)
    (ru : Option Url) (st : SessionType) (src : Except Unit (List (List Mdoc)))
    {vurl : Url} {tr rk dk : Bytes} {sd : SessionData} {dreq : DeviceRequest}
    (hurl : re.verifier_url = .ok vurl)
    (htk : re.transcript_and_keys_for_device_engagement ctx st
      (DeviceEngagement.new_device_engagement ctx REFERRER_URL epriv).1 epriv
      = .ok (tr, rk, dk))
    (hpost : post (DeviceEngagement.new_device_engagement ctx REFERRER_URL epriv).1 = .ok sd)
    (hdec : decrypt sd rk = .ok dreq)
    (hne : dreq.doc_requests ≠ []) :
    DisclosureSession.start ctx (.ok re) epriv post decrypt ru st src =
      (dreq.verify ctx tr).bind fun optRegistration =>
        match optRegistration with
        | none => .error (.holder .readerAuthMissing)
        | some reader_registration =>
          (dreq.match_stored_documents ctx src tr).bind fun m =>
            match m with
            | .missingAttributes missing_attributes =>
              .error (.holder (.attributesNotAvailable reader_registration missing_attributes))
            | .candidates candidates_by_doc_type =>
              if candidates_by_doc_type.any fun p => decide (p.2.length > 1) then
                .error (.holder (.multipleCandidates
                  ((candidates_by_doc_type.filter fun p => decide (p.2.length > 1)).map (·.1))))
              else
                .ok { return_url := ru, verifier_url := vurl, device_key := dk,
                      proposed_documents := candidates_by_doc_type.flatMap (·.2),
                      reader_registration := reader_registration } := by
  unfold DisclosureSession.start
  simp only [DeviceEngagement.new_device_engagement] at htk hpost
  simp only [Outcome.bind_ok, DeviceEngagement.new_device_engagement, hurl, htk, hpost, hdec]
  rw [if_neg (by simp [hne])]

/-! ## Claim C2 -/

/-- C2: reader authentication is all-or-nothing.  A `DeviceRequest` in
which at least one but not all doc requests are signed fails
verification with `ReaderAuthMissing`; when no doc request is signed,
verification returns the unauthenticated outcome (no registration),
which `DisclosureSession::start` rejects with `ReaderAuthMissing`. -/
theorem reader_auth_all_or_nothing (ctx : Ctx) (t : SessionTranscript)
    (dr : DeviceRequest) :
    ((∃ d ∈ dr.doc_requests, d.reader_auth ≠ none) →
      (∃ d ∈ dr.doc_requests, d.reader_auth = none) →
      dr.verify ctx t = .error (.holder .readerAuthMissing)) ∧
    ((∀ d ∈ dr.doc_requests, d.reader_auth = none) →
      dr.verify ctx t = .ok none ∧
      ∀ (re : ReaderEngagement) (epriv : SecretKey)
        (post : DeviceEngagement → Outcome SessionData)
        (decrypt : SessionData → SessionKey → Outcome DeviceRequest)
        (ru : Option Url) (st : SessionType) (src : Except Unit (List (List Mdoc)))
        (vurl : Url) (tr rk dk : Bytes) (sd : SessionData),
        re.verifier_url = .ok vurl →
        re.transcript_and_keys_for_device_engagement ctx st
          (DeviceEngagement.new_device_engagement ctx REFERRER_URL epriv).1 epriv
          = .ok (tr, rk, dk) →
        post (DeviceEngagement.new_device_engagement ctx REFERRER_URL epriv).1 = .ok sd →
        decrypt sd rk = .ok dr →
        dr.doc_requests ≠ [] →
        DisclosureSession.start ctx (.ok re) epriv post decrypt ru st src
          = .error (.holder .readerAuthMissing)) := by
  constructor
  · exact fun hsome hnone => deviceRequest_verify_mixed hsome hnone
  · intro hnone
    refine ⟨deviceRequest_verify_all_unsigned hnone, ?_⟩
    intro re epriv post decrypt ru st src vurl tr rk dk sd hurl htk hpost hdec hne
    rw [start_reduce ctx re epriv post decrypt ru st src hurl htk hpost hdec hne]
    rw [deviceRequest_verify_all_unsigned hnone, Outcome.bind_ok]

/-- C2 witness: a mixed request fails `ReaderAuthMissing`; an unsigned
request verifies to the unauthenticated outcome, and a full session
start over it is rejected with `ReaderAuthMissing`. -/
theorem reader_auth_all_or_nothing_witness :
    mixedReq.verify testCtx [1] = .error (.holder .readerAuthMissing) ∧
    exReq.verify testCtx [1] = .ok none ∧
    DisclosureSession.start testCtx (.ok exReaderEngagement) [6] wPost wDecryptAllNone
      none .sameDevice (.ok []) = .error (.holder .readerAuthMissing) := by
  refine ⟨?_, ?_, ?_⟩
  · exact (reader_auth_all_or_nothing testCtx [1] mixedReq).1
      ⟨reqXsigned, by decide, by decide⟩ ⟨reqY, by decide, by decide⟩
  · exact ((reader_auth_all_or_nothing testCtx [1] exReq).2 (by decide)).1
  · exact ((reader_auth_all_or_nothing testCtx [1] exReq).2 (by decide)).2
      exReaderEngagement [6] wPost wDecryptAllNone none .sameDevice (.ok [])
      "https://verifier.example/" [1] [2] [3] [4]
      rfl rfl rfl rfl (by decide)

/-! ## Claim C3 -/

/-- C3: with every doc request signed and individually verified, the
device request verifies only if all extracted certificates are
byte-identical, and any two differing certificates make it fail with
`ReaderAuthsInconsistent`. -/
theorem reader_auths_byte_identical (ctx : Ctx) (t : SessionTranscript)
    (dr : DeviceRequest) (certs : List Certificate)
    (hcerts : List.Forall₂ (fun d c => DocRequest.verify ctx d t = .ok (some c))
      dr.doc_requests certs) :
    ((∃ c ∈ certs, ∃ c' ∈ certs, c ≠ c') →
      dr.verify ctx t = .error (.holder .readerAuthsInconsistent)) ∧
    (∀ res, dr.verify ctx t = .ok res → ∀ c ∈ certs, ∀ c' ∈ certs, c = c') := by
  have hpart1 : (∃ c ∈ certs, ∃ c' ∈ certs, c ≠ c') →
      dr.verify ctx t = .error (.holder .readerAuthsInconsistent) := by
    rintro ⟨c, hc, c', hc', hne⟩
    have hauth := forall₂_verify_auth_ne_none ctx t hcerts
    obtain ⟨l, hgen⟩ : ∃ l, dr.doc_requests = l := ⟨_, rfl⟩
    rw [hgen] at hcerts hauth
    have hnil : dr.doc_requests ≠ [] := by
      rw [hgen]
      intro hemp
      rw [hemp] at hcerts
      cases hcerts
      simp at hc
    rw [deviceRequest_verify_all_signed hnil (hgen ▸ hauth), hgen]
    cases hcerts with
    | nil => simp at hc
    | @cons d x rest cs hd htl =>
      rw [verifyFold_cons, hd, Outcome.bind_ok]
      show (verifyFold ctx t rest (some x)).bind _ =
        .error (.holder .readerAuthsInconsistent)
      have hex : ∃ y ∈ cs, y ≠ x := by
        rcases List.mem_cons.mp hc with rfl | hcmem
        · rcases List.mem_cons.mp hc' with rfl | hcmem'
          · exact absurd rfl hne
          · exact ⟨c', hcmem', fun h => hne h.symm⟩
        · rcases List.mem_cons.mp hc' with rfl | hcmem'
          · exact ⟨c, hcmem, hne⟩
          · by_cases hcx : c = x
            · exact ⟨c', hcmem', fun h => hne (hcx.trans h.symm)⟩
            · exact ⟨c, hcmem, hcx⟩
      rw [verifyFold_error_of_ne ctx t htl hex]
      rfl
  refine ⟨hpart1, ?_⟩
  intro res hok c hc c' hc'
  by_contra hne
  rw [hpart1 ⟨c, hc, c', hc', hne⟩] at hok
  exact Outcome.noConfusion hok

/-- C3 witness: two requests signed by differing certificates fail
`ReaderAuthsInconsistent`; a verified request's certificates are all
equal. -/
theorem reader_auths_byte_identical_witness :
    diffCertReq.verify testCtx [1] = .error (.holder .readerAuthsInconsistent) ∧
    (∀ c ∈ [[10], [10]], ∀ c' ∈ [([10] : Certificate), [10]], c = c') :=
  ⟨(reader_auths_byte_identical testCtx [1] diffCertReq [[10], [11]]
      (List.Forall₂.cons (by decide) (List.Forall₂.cons (by decide) List.Forall₂.nil))).1
      ⟨[10], by decide, [11], by decide, by decide⟩,
    (reader_auths_byte_identical testCtx [1] exReqSigned [[10], [10]]
      (List.Forall₂.cons (by decide) (List.Forall₂.cons (by decide) List.Forall₂.nil))).2
      (some testRegistration) (by decide)⟩

/-! ## Claim C5 -/

/-- C5: a `ProposedDocument` built by `from_mdoc` contains exactly the
intersection of the mdoc's issuer-signed attributes with the requested
set, per namespace in original order with empty namespaces omitted, and
carries the issuer signature, doctype, key reference and challenge over
unchanged. -/
theorem proposed_document_filtering (m : Mdoc) (R : List AttributeIdentifier)
    (c : Bytes) :
    (ProposedDocument.from_mdoc m R c).issuer_signed.name_spaces =
      m.issuer_signed.name_spaces.map (fun nss => specIntersection m.doc_type nss R) ∧
    (ProposedDocument.from_mdoc m R c).issuer_signed.issuer_auth =
      m.issuer_signed.issuer_auth ∧
    (ProposedDocument.from_mdoc m R c).doc_type = m.doc_type ∧
    (ProposedDocument.from_mdoc m R c).private_key_id = m.private_key_id ∧
    (ProposedDocument.from_mdoc m R c).device_signed_challenge = c :=
  ⟨from_mdoc_name_spaces m R c, rfl, rfl, rfl, rfl⟩

/-! ## Claim C8 -/

/-- C8: transcript and key derivation is deterministic — the computed
`SessionTranscript` and both directional `SessionKey`s are a function of
the flow type, the two engagements, the ephemeral private key and the
derivation primitives alone; nothing else in the context (transport,
verification, randomness) can change them. -/
theorem transcript_and_keys_deterministic (ctx₁ ctx₂ : Ctx) (re : ReaderEngagement)
    (st : SessionType) (de : DeviceEngagement) (k : SecretKey)
    (ht : ctx₁.sessionTranscriptNew = ctx₂.sessionTranscriptNew)
    (hk : ctx₁.sessionKeyNew = ctx₂.sessionKeyNew) :
    re.transcript_and_keys_for_device_engagement ctx₁ st de k =
      re.transcript_and_keys_for_device_engagement ctx₂ st de k := by
  unfold ReaderEngagement.transcript_and_keys_for_device_engagement
  rw [ht, hk]

/-- C8 witness: recomputation over the concrete context yields the same
transcript and keys. -/
theorem transcript_and_keys_deterministic_witness :
    ReaderEngagement.transcript_and_keys_for_device_engagement testCtx
        exReaderEngagement .sameDevice exReaderEngagement [6] =
      ReaderEngagement.transcript_and_keys_for_device_engagement testCtx
        exReaderEngagement .sameDevice exReaderEngagement [6] :=
  transcript_and_keys_deterministic testCtx testCtx exReaderEngagement .sameDevice
    exReaderEngagement [6] rfl rfl

/-! ## Claim C10 -/

theorem mapOutcome_ok {f : α → Outcome β} :
    ∀ {l : List α} {bs : List β}, mapOutcome f l = .ok bs →
      bs.length = l.length ∧ ∀ b ∈ bs, ∃ a ∈ l, f a = .ok b := by
  intro l
  induction l with
  | nil =>
    intro bs h
    unfold mapOutcome at h
    have : bs = [] := by
      injection h with h'
      exact h'.symm
    subst this
    simp
  | cons a rest ih =>
    intro bs h
    unfold mapOutcome at h
    cases hfa : f a with
    | panic msg => rw [hfa] at h; exact absurd h (by simp)
    | error e => rw [hfa] at h; exact absurd h (by simp)
    | ok b =>
      rw [hfa, Outcome.bind_ok] at h
      cases hrest : mapOutcome f rest with
      | panic msg => rw [hrest] at h; exact absurd h (by simp [Outcome.bind])
      | error e => rw [hrest] at h; exact absurd h (by simp [Outcome.bind])
      | ok bs' =>
        rw [hrest, Outcome.bind_ok] at h
        have hbs : bs = b :: bs' := by
          injection h with h'
          exact h'.symm
        subst hbs
        obtain ⟨hlen, hmem⟩ := ih hrest
        refine ⟨by simp [hlen], ?_⟩
        intro b' hb'
        rcases List.mem_cons.mp hb' with rfl | hb''
        · exact ⟨a, by simp, hfa⟩
        · obtain ⟨a', ha', hfa'⟩ := hmem b' hb''
          exact ⟨a', by simp [ha'], hfa'⟩

theorem disclose_document_shape {ctx : Ctx} {retrieve : DocType → Option (List MdocCopies)}
    {d : DocRequest} {t : SessionTranscript} {doc : Document}
    (h : Wallet.disclose_document ctx retrieve d t = .ok doc) :
    doc.errors = none ∧
    ∃ pid ch, doc.device_signed = DeviceSigned.new_signature ctx pid ch := by
  unfold Wallet.disclose_document at h
  cases hr : retrieve d.items_request.doc_type with
  | none => simp only [hr] at h; exact absurd h (by simp)
  | some creds =>
    simp only [hr] at h
    cases hh : creds.head? with
    | none => simp only [hh] at h; exact absurd h (by simp)
    | some fc =>
      simp only [hh] at h
      cases hcc : fc.cred_copies.head? with
      | none => simp only [hcc] at h; exact absurd h (by simp)
      | some cred =>
        simp only [hcc] at h
        unfold Mdoc.disclose_document at h
        cases hns : cred.issuer_signed.name_spaces with
        | none => simp only [hns] at h; exact absurd h (by simp)
        | some nss =>
          simp only [hns, Outcome.ok.injEq] at h
          refine ⟨?_, cred.private_key_id,
            ctx.serializeChallenge t cred.doc_type, ?_⟩
          · rw [← h]
          · rw [← h]

/-- C10: a successful disclosure assembles a `DeviceResponse` with fixed
version `1.0`, status `0`, no per-document error reporting, one
`Document` per doc request; and every `DeviceSigned::new_signature`
proof has an empty device-asserted namespace map and a signature-based
(not MAC-based) device auth. -/
theorem disclose_response_shape (ctx : Ctx)
    (retrieve : DocType → Option (List MdocCopies)) (dreq : DeviceRequest)
    (t : SessionTranscript) (resp : DeviceResponse)
    (h : Wallet.disclose ctx retrieve dreq t = .ok resp) :
    resp.version = .v1_0 ∧ resp.status = 0 ∧ resp.document_errors = none ∧
    (∃ docs, resp.documents = some docs ∧
      docs.length = dreq.doc_requests.length ∧
      ∀ doc ∈ docs, doc.errors = none ∧
        doc.device_signed.name_spaces = [] ∧
        ∃ c0, doc.device_signed.device_auth = .deviceSignature c0) ∧
    (∀ pid ch, (DeviceSigned.new_signature ctx pid ch).name_spaces = [] ∧
      ∃ c0, (DeviceSigned.new_signature ctx pid ch).device_auth = .deviceSignature c0) := by
  unfold Wallet.disclose at h
  cases hmap : mapOutcome
      (fun doc_request => Wallet.disclose_document ctx retrieve doc_request t)
      dreq.doc_requests with
  | panic msg => rw [hmap] at h; exact absurd h (by simp [Outcome.bind])
  | error e => rw [hmap] at h; exact absurd h (by simp [Outcome.bind])
  | ok docs =>
    rw [hmap, Outcome.bind_ok] at h
    have hresp := h
    simp only [Outcome.ok.injEq] at hresp
    subst hresp
    obtain ⟨hlen, hmem⟩ := mapOutcome_ok hmap
    refine ⟨rfl, rfl, rfl, ⟨docs, rfl, hlen, ?_⟩, fun pid ch => ⟨rfl, _, rfl⟩⟩
    intro doc hdoc
    obtain ⟨d, -, hd⟩ := hmem doc hdoc
    obtain ⟨herr, pid, ch, hds⟩ := disclose_document_shape hd
    exact ⟨herr, by rw [hds]; rfl, by rw [hds]; exact ⟨_, rfl⟩⟩

/-- C10 witness: a concrete disclosure over one stored X credential. -/
theorem disclose_response_shape_witness :
    wResp.version = .v1_0 ∧ wResp.status = 0 ∧ wResp.document_errors = none ∧
    (∃ docs, wResp.documents = some docs ∧
      docs.length = wReqXunsigned.doc_requests.length ∧
      ∀ doc ∈ docs, doc.errors = none ∧
        doc.device_signed.name_spaces = [] ∧
        ∃ c0, doc.device_signed.device_auth = .deviceSignature c0) ∧
    (∀ pid ch, (DeviceSigned.new_signature testCtx pid ch).name_spaces = [] ∧
      ∃ c0, (DeviceSigned.new_signature testCtx pid ch).device_auth
        = .deviceSignature c0) :=
  disclose_response_shape testCtx wRetrieve wReqXunsigned [1] wResp (by decide)

/-! ## Claim C9 -/

theorem itemsRequest_ai_doc_type {ir : ItemsRequest} {ai : AttributeIdentifier}
    (h : ai ∈ ir.attribute_identifiers) : ai.doc_type = ir.doc_type := by
  unfold ItemsRequest.attribute_identifiers at h
  simp only [List.mem_flatMap, List.mem_map] at h
  obtain ⟨p, -, d, -, rfl⟩ := h
  rfl

theorem deviceRequest_ai_mem {dr : DeviceRequest} {ai : AttributeIdentifier} :
    ai ∈ dr.attribute_identifiers ↔
      ∃ dq ∈ dr.doc_requests, ai ∈ dq.items_request.attribute_identifiers := by
  unfold DeviceRequest.attribute_identifiers
  simp [List.mem_flatMap]

/-- The keys of the requested-attributes map are requested doctypes. -/
theorem keys_requested_subset {dr : DeviceRequest} {d : DocType}
    (h : d ∈ dr.requestedAttributesByDocType.map Prod.fst) :
    d ∈ dr.doc_requests.map (·.items_request.doc_type) := by
  obtain ⟨ai, hai, rfl⟩ := mem_keys_requested.mp h
  obtain ⟨dq, hdq, hmem⟩ := deviceRequest_ai_mem.mp hai
  rw [itemsRequest_ai_doc_type hmem]
  exact List.mem_map.mpr ⟨dq, hdq, rfl⟩

/-- A requested doctype with at least one requested identifier is a key
of the requested-attributes map. -/
theorem requested_mem_keys {dr : DeviceRequest} {dq : DocRequest}
    (hdq : dq ∈ dr.doc_requests)
    (hid : dq.items_request.attribute_identifiers ≠ []) :
    dq.items_request.doc_type ∈ dr.requestedAttributesByDocType.map Prod.fst := by
  obtain ⟨ai, hai⟩ := List.exists_mem_of_ne_nil _ hid
  apply mem_keys_requested.mpr
  exact ⟨ai, deviceRequest_ai_mem.mpr ⟨dq, hdq, hai⟩, itemsRequest_ai_doc_type hai⟩

/-- C9 (amended): a credential-source contract violation is fatal rather
than a user-facing error — a returned non-empty group whose doctype was
not requested, or whose mdocs have differing doctypes, makes
`match_stored_documents` abort the process; and when the source honors
its grouping contract AND every requested doctype carries at least one
requested attribute identifier, the fatal branches are unreachable. -/
theorem source_contract_violation_fatal (ctx : Ctx) (dr : DeviceRequest)
    (groups : List (List Mdoc)) (t : SessionTranscript) :
    ((∃ g ∈ groups, ∃ m0, g.head? = some m0 ∧
        (m0.doc_type ∉ dr.doc_requests.map (·.items_request.doc_type) ∨
          ∃ m ∈ g, m.doc_type ≠ m0.doc_type)) →
      ∃ msg, dr.match_stored_documents ctx (.ok groups) t = .panic msg) ∧
    (SourceHonorsContract dr groups →
      (∀ dq ∈ dr.doc_requests, dq.items_request.attribute_identifiers ≠ []) →
      ∃ r, dr.match_stored_documents ctx (.ok groups) t = .ok r) := by
  constructor
  · rintro ⟨g, hg, m0, hm0, hbad⟩
    have hviol : ∃ g ∈ groups, ∃ m0, g.head? = some m0 ∧
        (m0.doc_type ∉ dr.requestedAttributesByDocType.map Prod.fst ∨
          ∃ m ∈ g, m.doc_type ≠ m0.doc_type) := by
      refine ⟨g, hg, m0, hm0, ?_⟩
      rcases hbad with hnk | hbad2
      · exact Or.inl fun hmem => hnk (keys_requested_subset hmem)
      · exact Or.inr hbad2
    obtain ⟨msg, hmsg⟩ := matchLoop_panic_of_violation ctx t hviol
    rw [match_stored_documents_eq, hmsg]
    exact ⟨msg, rfl⟩
  · rintro ⟨huni, hmemT, hndg⟩ hid
    have hmem : ∀ d ∈ groupDocTypes groups,
        d ∈ dr.requestedAttributesByDocType.map Prod.fst := by
      intro d hd
      obtain ⟨dq, hdq, hdqd⟩ := List.mem_map.mp (hmemT d hd)
      rw [← hdqd]
      exact requested_mem_keys hdq (hid dq hdq)
    obtain ⟨out, hout⟩ := matchLoop_ok_of_contract ctx t huni hmem hndg
    rw [match_stored_documents_eq, hout, Outcome.bind_ok]
    by_cases hc : (out.1.any (fun p => p.2.isEmpty) || !out.2.2.isEmpty) = true
    · rw [if_pos hc]
      exact ⟨_, rfl⟩
    · rw [if_neg hc]
      exact ⟨_, rfl⟩

/-- C9 counterexample: a source result that honors the grouping contract
(a single, uniform group for the requested doctype X) still panics,
because the request carries no attribute identifier for X. -/
theorem source_contract_panic_counterexample :
    exReq9.match_stored_documents testCtx (.ok [[mdocX1]]) [1]
      = .panic "Received mdoc candidate with unexpected doc_type from storage" ∧
    SourceHonorsContract exReq9 [[mdocX1]] :=
  ⟨by decide, by decide, by decide, by decide⟩

/-- C9 witness: a group whose doctype was never requested panics; a
contract-honoring result over a request with identifiers completes. -/
theorem source_contract_violation_fatal_witness :
    (∃ msg, exReq.match_stored_documents testCtx (.ok [[mdocY1, mdocX1]]) [1]
      = .panic msg) ∧
    (∃ r, exReq.match_stored_documents testCtx (.ok [[mdocX1], [mdocY1]]) [1]
      = .ok r) :=
  ⟨(source_contract_violation_fatal testCtx exReq [[mdocY1, mdocX1]] [1]).1
      ⟨[mdocY1, mdocX1], by decide, mdocY1, by decide,
        Or.inr ⟨mdocX1, by decide, by decide⟩⟩,
    (source_contract_violation_fatal testCtx exReq [[mdocX1], [mdocY1]] [1]).2
      ⟨by decide, by decide, by decide⟩ (by decide)⟩

/-! ## Claim C4 -/

/-- C4: when matching fails, `DisclosureSession::start` aborts without a
session, returning `AttributesNotAvailable` with the registration and
the unmet identifiers; the reported set is, for each processed doctype,
only the first non-satisfying mdoc's missing record, plus all requested
identifiers of every doctype the source never returned. -/
theorem attributes_not_available_aborts (ctx : Ctx) (re : ReaderEngagement)
    (epriv : SecretKey) (post : DeviceEngagement → Outcome SessionData)
    (decrypt : SessionData → SessionKey → Outcome DeviceRequest)
    (ru : Option Url) (st : SessionType) (groups : List (List Mdoc))
    {vurl : Url} {tr rk dk : Bytes} {sd : SessionData} {dreq : DeviceRequest}
    {reg : ReaderRegistration} {l : List AttributeIdentifier}
    (hurl : re.verifier_url = .ok vurl)
    (htk : re.transcript_and_keys_for_device_engagement ctx st
      (DeviceEngagement.new_device_engagement ctx REFERRER_URL epriv).1 epriv
      = .ok (tr, rk, dk))
    (hpost : post (DeviceEngagement.new_device_engagement ctx REFERRER_URL epriv).1 = .ok sd)
    (hdec : decrypt sd rk = .ok dreq)
    (hne : dreq.doc_requests ≠ [])
    (hver : dreq.verify ctx tr = .ok (some reg))
    (hmatch : dreq.match_stored_documents ctx (.ok groups) tr
      = .ok (.missingAttributes l)) :
    DisclosureSession.start ctx (.ok re) epriv post decrypt ru st (.ok groups)
      = .error (.holder (.attributesNotAvailable reg l)) ∧
    l = specMissingList dreq groups := by
  refine ⟨?_, match_missing_eq_spec hmatch⟩
  rw [start_reduce ctx re epriv post decrypt ru st (.ok groups) hurl htk hpost hdec hne]
  simp only [hver, Outcome.bind_ok, hmatch]

/-- C4 witness: the session start over the mixed X/Y scenario aborts
with the registration and the two unmet identifiers. -/
theorem attributes_not_available_aborts_witness :
    DisclosureSession.start testCtx (.ok exReaderEngagement) [6] wPost wDecryptSigned
        none .sameDevice (.ok [[mdocX1, mdocX2]])
      = .error (.holder (.attributesNotAvailable testRegistration
          [⟨"X", "ns", "a"⟩, ⟨"Y", "ns", "z"⟩])) ∧
    [(⟨"X", "ns", "a"⟩ : AttributeIdentifier), ⟨"Y", "ns", "z"⟩] =
      specMissingList exReqSigned [[mdocX1, mdocX2]] :=
  @attributes_not_available_aborts testCtx exReaderEngagement [6] wPost wDecryptSigned
    none .sameDevice [[mdocX1, mdocX2]] "https://verifier.example/" [1] [2] [3] [4]
    exReqSigned testRegistration [⟨"X", "ns", "a"⟩, ⟨"Y", "ns", "z"⟩]
    (by decide) (by decide) (by decide) (by decide) (by decide) (by decide) (by decide)

/-! ## Claim C6 -/

/-- C6: if any credential type has two or more viable candidates, the
session start fails with `MultipleCandidates` naming exactly the set of
types with more than one candidate, and no session is returned. -/
theorem multiple_candidates_abort (ctx : Ctx) (re : ReaderEngagement)
    (epriv : SecretKey) (post : DeviceEngagement → Outcome SessionData)
    (decrypt : SessionData → SessionKey → Outcome DeviceRequest)
    (ru : Option Url) (st : SessionType) (groups : List (List Mdoc))
    {vurl : Url} {tr rk dk : Bytes} {sd : SessionData} {dreq : DeviceRequest}
    {reg : ReaderRegistration} {cands : List (DocType × List ProposedDocument)}
    (hurl : re.verifier_url = .ok vurl)
    (htk : re.transcript_and_keys_for_device_engagement ctx st
      (DeviceEngagement.new_device_engagement ctx REFERRER_URL epriv).1 epriv
      = .ok (tr, rk, dk))
    (hpost : post (DeviceEngagement.new_device_engagement ctx REFERRER_URL epriv).1 = .ok sd)
    (hdec : decrypt sd rk = .ok dreq)
    (hne : dreq.doc_requests ≠ [])
    (hver : dreq.verify ctx tr = .ok (some reg))
    (hmatch : dreq.match_stored_documents ctx (.ok groups) tr = .ok (.candidates cands))
    (hdup : ∃ p ∈ cands, 1 < p.2.length) :
    ∃ dups, DisclosureSession.start ctx (.ok re) epriv post decrypt ru st (.ok groups)
        = .error (.holder (.multipleCandidates dups)) ∧
      ∀ d, d ∈ dups ↔ ∃ cs, (d, cs) ∈ cands ∧ 1 < cs.length := by
  refine ⟨(cands.filter fun p => decide (p.2.length > 1)).map (·.1), ?_, ?_⟩
  · rw [start_reduce ctx re epriv post decrypt ru st (.ok groups) hurl htk hpost hdec hne]
    simp only [hver, Outcome.bind_ok, hmatch]
    rw [if_pos]
    rw [List.any_eq_true]
    obtain ⟨p, hp, hlen⟩ := hdup
    exact ⟨p, hp, by simpa using hlen⟩
  · intro d
    simp only [List.mem_map, List.mem_filter, decide_eq_true_eq]
    constructor
    · rintro ⟨p, ⟨hp, hlen⟩, rfl⟩
      exact ⟨p.2, by simpa using hp, hlen⟩
    · rintro ⟨cs, hmem, hlen⟩
      exact ⟨(d, cs), ⟨hmem, hlen⟩, rfl⟩

/-- C6 witness: two viable X candidates abort the start with
`MultipleCandidates` naming exactly X. -/
theorem multiple_candidates_abort_witness :
    ∃ dups, DisclosureSession.start testCtx (.ok exReaderEngagement) [6] wPost
        wDecryptXonly none .sameDevice (.ok [[mdocX1, mdocX1b]])
        = .error (.holder (.multipleCandidates dups)) ∧
      ∀ d, d ∈ dups ↔ ∃ cs, (d, cs) ∈ wCandsX ∧ 1 < cs.length :=
  @multiple_candidates_abort testCtx exReaderEngagement [6] wPost wDecryptXonly
    none .sameDevice [[mdocX1, mdocX1b]] "https://verifier.example/" [1] [2] [3] [4]
    wReqXonly testRegistration wCandsX (by decide) (by decide) (by decide)
    (by decide) (by decide) (by decide) (by decide)
    ⟨("X",
      [ProposedDocument.from_mdoc mdocX1
          (reqGet wReqXonly.requestedAttributesByDocType "X") [1],
        ProposedDocument.from_mdoc mdocX1b
          (reqGet wReqXonly.requestedAttributesByDocType "X") [1]]),
      by decide, by decide⟩

/-! ## Claim C7 -/

theorem map_fst_specCands (ctx : Ctx) (t : SessionTranscript)
    (reqMap : List (DocType × List AttributeIdentifier)) (groups : List (List Mdoc)) :
    (specCands ctx t reqMap groups).map Prod.fst = groupDocTypes groups := by
  induction groups with
  | nil => rfl
  | cons g rest ih =>
    cases g with
    | nil => simpa using ih
    | cons m0 g' => simp [ih]

theorem length_le_one_pairwise {lst : List ProposedDocument} (h : lst.length ≤ 1) :
    lst.Pairwise (fun a b => a.doc_type ≠ b.doc_type) := by
  cases lst with
  | nil => simp
  | cons a rest =>
    cases rest with
    | nil => simp
    | cons b rest' => simp at h

/-- Flattening a candidates map with distinct keys, key-tagged proposals
and at most one proposal per key yields pairwise-distinct doctypes. -/
theorem flatMap_proposals_pairwise {cs : List (DocType × List ProposedDocument)}
    (hkeys : (cs.map Prod.fst).Nodup)
    (htag : ∀ p ∈ cs, ∀ pd ∈ p.2, pd.doc_type = p.1)
    (hlen : ∀ p ∈ cs, p.2.length ≤ 1) :
    (cs.flatMap (·.2)).Pairwise (fun a b => a.doc_type ≠ b.doc_type) := by
  induction cs with
  | nil => simp
  | cons p rest ih =>
    rw [List.flatMap_cons, List.pairwise_append]
    simp only [List.map_cons, List.nodup_cons] at hkeys
    refine ⟨length_le_one_pairwise (hlen p (by simp)),
      ih hkeys.2 (fun q hq => htag q (by simp [hq]))
        (fun q hq => hlen q (by simp [hq])), ?_⟩
    intro a ha b hb
    obtain ⟨q, hq, hbq⟩ := List.mem_flatMap.mp hb
    rw [htag p (by simp) a ha, htag q (by simp [hq]) b hbq]
    intro hab
    exact hkeys.1 (hab ▸ List.mem_map_of_mem Prod.fst hq)

theorem specCands_mem_tag (ctx : Ctx) (t : SessionTranscript)
    (reqMap : List (DocType × List AttributeIdentifier)) {groups : List (List Mdoc)}
    (huni : ∀ g ∈ groups, ∀ m0, g.head? = some m0 → ∀ m ∈ g, m.doc_type = m0.doc_type) :
    ∀ p ∈ specCands ctx t reqMap groups, ∀ pd ∈ p.2, pd.doc_type = p.1 := by
  intro p hp pd hpd
  unfold specCands at hp
  obtain ⟨g, hg, hfg⟩ := List.mem_filterMap.mp hp
  cases g with
  | nil => simp at hfg
  | cons m0 g' =>
    simp only [List.head?_cons, Option.map_some'] at hfg
    obtain rfl := (Option.some_inj.mp hfg).symm
    obtain ⟨m, hm, -, rfl⟩ := cam_fst_mem.mp hpd
    exact huni (m0 :: g') hg m0 rfl m hm

/-- C7: every session a successful `DisclosureSession::start` returns
holds at most one proposed document per credential type. -/
theorem at_most_one_proposal_per_doc_type (ctx : Ctx)
    (decodeResult : Outcome ReaderEngagement) (epriv : SecretKey)
    (post : DeviceEngagement → Outcome SessionData)
    (decrypt : SessionData → SessionKey → Outcome DeviceRequest)
    (ru : Option Url) (st : SessionType) (src : Except Unit (List (List Mdoc)))
    (s : DisclosureSession)
    (h : DisclosureSession.start ctx decodeResult epriv post decrypt ru st src = .ok s) :
    s.proposed_documents.Pairwise (fun a b => a.doc_type ≠ b.doc_type) := by
  unfold DisclosureSession.start at h
  obtain ⟨re, hre, h⟩ := Outcome.bind_eq_ok h
  obtain ⟨vurl, hurl, h⟩ := Outcome.bind_eq_ok h
  simp only [DeviceEngagement.new_device_engagement] at h
  obtain ⟨⟨tr, rk, dk⟩, htk, h⟩ := Outcome.bind_eq_ok h
  obtain ⟨sd, hpost, h⟩ := Outcome.bind_eq_ok h
  obtain ⟨dreq, hdec, h⟩ := Outcome.bind_eq_ok h
  by_cases hne : dreq.doc_requests.isEmpty
  · rw [if_pos hne] at h
    exact absurd h (by simp)
  · rw [if_neg hne] at h
    obtain ⟨optReg, hver, h⟩ := Outcome.bind_eq_ok h
    cases optReg with
    | none => exact absurd h (by simp)
    | some reg =>
      cases src with
      | error u =>
        have hms : DeviceRequest.match_stored_documents ctx dreq (.error u) tr
            = .error (.holder .mdocDataSource) := rfl
        rw [hms] at h
        exact absurd h (by simp [Outcome.bind])
      | ok groups =>
        obtain ⟨m, hmatch, h⟩ := Outcome.bind_eq_ok h
        cases m with
        | missingAttributes l => exact absurd h (by simp)
        | candidates cands =>
          have h' : (if cands.any (fun p => decide (p.2.length > 1)) then
              (.error (.holder (.multipleCandidates
                ((cands.filter fun p => decide (p.2.length > 1)).map (·.1))))
              : Outcome DisclosureSession)
            else .ok { return_url := ru, verifier_url := vurl, device_key := dk,
                       proposed_documents := cands.flatMap (·.2),
                       reader_registration := reg }) = .ok s := h
          by_cases hdup : (cands.any fun p => decide (p.2.length > 1)) = true
          · rw [if_pos hdup] at h'
            exact absurd h' (by simp)
          · rw [if_neg hdup] at h'
            have hs := h'
            simp only [Outcome.ok.injEq] at hs
            have hprop : s.proposed_documents = cands.flatMap (·.2) := by
              rw [← hs]
            rw [hprop]
            obtain ⟨cs', ms, fin, hml, hcase⟩ := match_stored_documents_ok_inv hmatch
            have hcands : cands = cs' := by
              rcases hcase with ⟨-, hr⟩ | ⟨-, hr⟩
              · exact absurd hr (by simp)
              · simpa using hr
            subst hcands
            obtain ⟨h1, -, -, -, h5, h6⟩ :=
              matchLoop_ok_spec ctx tr (nodup_keys_requested dreq) hml
            have hkeys : (cands.map Prod.fst).Nodup := by
              rw [h1, map_fst_specCands]
              exact h5
            have htag : ∀ p ∈ cands, ∀ pd ∈ p.2, pd.doc_type = p.1 := by
              rw [h1]
              exact specCands_mem_tag ctx tr _ h6
            have hlen : ∀ p ∈ cands, p.2.length ≤ 1 := by
              intro p hp
              have := List.any_eq_false.mp (Bool.eq_false_iff.mpr hdup) p hp
              simpa [Nat.not_lt] using this
            exact flatMap_proposals_pairwise hkeys htag hlen

/-- C7 witness: the session from a concrete successful start has
pairwise-distinct proposal doctypes. -/
theorem at_most_one_proposal_per_doc_type_witness :
    wSession.proposed_documents.Pairwise (fun a b => a.doc_type ≠ b.doc_type) :=
  at_most_one_proposal_per_doc_type testCtx (.ok exReaderEngagement) [6] wPost
    wDecryptXonly none .sameDevice (.ok [[mdocX1]]) wSession (by decide)

/-! ## Claim C1 -/

theorem head?_mem {l : List α} {x : α} (h : l.head? = some x) : x ∈ l := by
  cases l with
  | nil => simp at h
  | cons a t =>
    simp only [List.head?_cons, Option.some_inj] at h
    exact h ▸ List.mem_cons_self a t

theorem mem_of_aLookup {l : List (DocType × α)} {k : DocType} {v : α}
    (h : aLookup l k = some v) : (k, v) ∈ l := by
  induction l with
  | nil => simp [aLookup] at h
  | cons p rest ih =>
    obtain ⟨d, w⟩ := p
    by_cases hd : d = k
    · subst hd
      rw [aLookup, if_pos rfl] at h
      obtain rfl : w = v := Option.some_inj.mp h
      exact List.mem_cons_self _ _
    · rw [aLookup, if_neg hd] at h
      exact List.mem_cons_of_mem _ (ih h)

theorem aLookup_of_mem_nodup {l : List (DocType × α)}
    (hnd : (l.map Prod.fst).Nodup) {k : DocType} {v : α}
    (h : (k, v) ∈ l) : aLookup l k = some v := by
  induction l with
  | nil => simp at h
  | cons p rest ih =>
    obtain ⟨d, w⟩ := p
    simp only [List.map_cons, List.nodup_cons] at hnd
    rcases List.mem_cons.mp h with heq | hmem
    · injection heq with h1 h2
      subst h1; subst h2
      rw [aLookup, if_pos rfl]
    · by_cases hd : d = k
      · subst hd
        exact absurd (List.mem_map_of_mem Prod.fst hmem) hnd.1
      · rw [aLookup, if_neg hd]
        exact ih hnd.2 hmem

theorem mem_groupDocTypes {groups : List (List Mdoc)} {d : DocType} :
    d ∈ groupDocTypes groups ↔
      ∃ g ∈ groups, ∃ m0, g.head? = some m0 ∧ m0.doc_type = d := by
  unfold groupDocTypes
  constructor
  · intro h
    obtain ⟨g, hg, hfg⟩ := List.mem_filterMap.mp h
    cases hh : g.head? with
    | none => rw [hh] at hfg; simp at hfg
    | some m0 =>
      rw [hh] at hfg
      simp only [Option.map_some'] at hfg
      exact ⟨g, hg, m0, hh, Option.some_inj.mp hfg⟩
  · rintro ⟨g, hg, m0, hm0, rfl⟩
    exact List.mem_filterMap.mpr ⟨g, hg, by rw [hm0]; rfl⟩

theorem head_type_unique {groups : List (List Mdoc)}
    (hnd : (groupDocTypes groups).Nodup) {g g' : List Mdoc} {m0 m0' : Mdoc}
    (hg : g ∈ groups) (hg' : g' ∈ groups)
    (h0 : g.head? = some m0) (h0' : g'.head? = some m0')
    (heq : m0.doc_type = m0'.doc_type) : g = g' := by
  induction groups with
  | nil => simp at hg
  | cons a rest ih =>
    rcases List.mem_cons.mp hg with rfl | hgr
    · rcases List.mem_cons.mp hg' with rfl | hgr'
      · rfl
      · exfalso
        cases g with
        | nil => simp at h0
        | cons x xs =>
          obtain rfl : x = m0 := by simpa using h0
          rw [groupDocTypes_cons] at hnd
          have := (List.nodup_cons.mp hnd).1
          apply this
          rw [heq]
          exact mem_groupDocTypes.mpr ⟨g', hgr', m0', h0', rfl⟩
    · rcases List.mem_cons.mp hg' with rfl | hgr'
      · exfalso
        cases g' with
        | nil => simp at h0'
        | cons x xs =>
          obtain rfl : x = m0' := by simpa using h0'
          rw [groupDocTypes_cons] at hnd
          have := (List.nodup_cons.mp hnd).1
          apply this
          rw [← heq]
          exact mem_groupDocTypes.mpr ⟨g, hgr, m0, h0, rfl⟩
      · apply ih ?_ hgr hgr'
        cases a with
        | nil => simpa using hnd
        | cons x xs => exact (List.nodup_cons.mp (by simpa using hnd)).2

theorem mdocSatisfies_iff {m : Mdoc} {R : List AttributeIdentifier} :
    mdocSatisfies m R = true ↔
      ∀ ai ∈ R, ai ∈ m.issuer_signed.attribute_identifiers m.doc_type := by
  unfold mdocSatisfies
  rw [List.all_eq_true]
  simp

theorem not_mdocSatisfies_iff {m : Mdoc} {R : List AttributeIdentifier} :
    mdocSatisfies m R = false ↔
      ∃ ai ∈ R, ai ∉ m.issuer_signed.attribute_identifiers m.doc_type := by
  constructor
  · intro h
    by_contra hno
    push_neg at hno
    rw [mdocSatisfies_iff.mpr hno] at h
    exact absurd h (by simp)
  · rintro ⟨ai, hai, hnot⟩
    cases hs : mdocSatisfies m R
    · rfl
    · exact absurd (mdocSatisfies_iff.mp hs ai hai) hnot

/-- Membership of a doctype in the spec-worded missing list: either some
processed group of that doctype has a non-satisfying mdoc (the first
record is then non-empty), or the doctype is requested but unreturned. -/
theorem specMissingList_type_mem {dr : DeviceRequest} {groups : List (List Mdoc)}
    (d : DocType) :
    (∃ ai ∈ specMissingList dr groups, ai.doc_type = d) ↔
      ((∃ g ∈ groups, ∃ m0, g.head? = some m0 ∧ m0.doc_type = d ∧
          ∃ m ∈ g, mdocSatisfies m (reqGet dr.requestedAttributesByDocType d) = false) ∨
        (∃ ai ∈ dr.attribute_identifiers, ai.doc_type = d ∧
          d ∉ groupDocTypes groups)) := by
  unfold specMissingList
  constructor
  · rintro ⟨ai, hai, rfl⟩
    rcases List.mem_append.mp hai with hA | hB
    · obtain ⟨rec, hrec, hairec⟩ := List.mem_flatten.mp hA
      obtain ⟨g, hg, hfg⟩ := List.mem_filterMap.mp hrec
      cases hh : g.head? with
      | none => rw [hh] at hfg; simp at hfg
      | some m0 =>
        rw [hh] at hfg
        simp only [Option.some_bind] at hfg
        cases hfil : (g.filter fun mdoc =>
            !mdocSatisfies mdoc (reqGet dr.requestedAttributesByDocType m0.doc_type)).head? with
        | none => rw [hfil] at hfg; simp at hfg
        | some mdoc0 =>
          rw [hfil] at hfg
          simp only [Option.map_some'] at hfg
          obtain rfl := (Option.some_inj.mp hfg).symm
          obtain ⟨haiR, -⟩ := List.mem_filter.mp hairec
          have htype : ai.doc_type = m0.doc_type := (mem_reqGet_requested.mp haiR).2
          have hmem0 := List.mem_filter.mp (head?_mem hfil)
          refine Or.inl ⟨g, hg, m0, hh, htype.symm, mdoc0, hmem0.1, ?_⟩
          rw [htype]
          simpa using hmem0.2
    · obtain ⟨p, hp, haip⟩ := List.mem_flatMap.mp hB
      have hpmem := List.mem_filter.mp hp
      have hget : aLookup dr.requestedAttributesByDocType p.1 = some p.2 :=
        aLookup_of_mem_nodup (nodup_keys_requested dr) hpmem.1
      have haiget : ai ∈ reqGet dr.requestedAttributesByDocType p.1 := by
        rw [reqGet, hget]
        exact haip
      obtain ⟨haireq, haitype⟩ := mem_reqGet_requested.mp haiget
      refine Or.inr ⟨ai, haireq, rfl, ?_⟩
      rw [haitype]
      simpa using hpmem.2
  · rintro (⟨g, hg, m0, hh, htype, m, hm, hsat⟩ | ⟨ai, haireq, haitype, hnotin⟩)
    · subst htype
      have hfilne : (g.filter fun mdoc =>
          !mdocSatisfies mdoc (reqGet dr.requestedAttributesByDocType m0.doc_type)) ≠ [] := by
        intro hnil
        have := List.filter_eq_nil_iff.mp hnil m hm
        simp [hsat] at this
      cases hfil : (g.filter fun mdoc =>
          !mdocSatisfies mdoc (reqGet dr.requestedAttributesByDocType m0.doc_type)).head? with
      | none => exact absurd (List.head?_eq_none_iff.mp hfil) hfilne
      | some mdoc0 =>
        have hmem0 := List.mem_filter.mp (head?_mem hfil)
        have hsat0 : mdocSatisfies mdoc0
            (reqGet dr.requestedAttributesByDocType m0.doc_type) = false := by
          simpa using hmem0.2
        obtain ⟨ai, haiR, hainot⟩ := not_mdocSatisfies_iff.mp hsat0
        refine ⟨ai, ?_, (mem_reqGet_requested.mp haiR).2⟩
        apply List.mem_append.mpr
        left
        apply List.mem_flatten.mpr
        refine ⟨(reqGet dr.requestedAttributesByDocType m0.doc_type).filter fun ai =>
          decide (ai ∉ mdoc0.issuer_signed.attribute_identifiers mdoc0.doc_type), ?_, ?_⟩
        · apply List.mem_filterMap.mpr
          refine ⟨g, hg, ?_⟩
          rw [hh]
          simp only [Option.some_bind]
          rw [hfil]
          rfl
        · exact List.mem_filter.mpr ⟨haiR, by simpa using hainot⟩
    · subst haitype
      have hkey : ai.doc_type ∈ dr.requestedAttributesByDocType.map Prod.fst :=
        mem_keys_requested.mpr ⟨ai, haireq, rfl⟩
      obtain ⟨v, hv⟩ := aLookup_isSome_of_mem_keys hkey
      refine ⟨ai, ?_, rfl⟩
      apply List.mem_append.mpr
      right
      apply List.mem_flatMap.mpr
      refine ⟨(ai.doc_type, v), ?_, ?_⟩
      · exact List.mem_filter.mpr ⟨mem_of_aLookup hv, by simpa using hnotin⟩
      · have hmem : ai ∈ reqGet dr.requestedAttributesByDocType ai.doc_type :=
          mem_reqGet_requested.mpr ⟨haireq, rfl⟩
        rw [reqGet, hv] at hmem
        exact hmem

/-- Forward half of C1's candidates condition: a `Candidates` outcome
certifies a satisfying mdoc for every requested doctype. -/
theorem match_candidates_forward (ctx : Ctx) {dr : DeviceRequest}
    {groups : List (List Mdoc)} {t : SessionTranscript}
    (hid : ∀ dq ∈ dr.doc_requests, dq.items_request.attribute_identifiers ≠ [])
    {cs : List (DocType × List ProposedDocument)}
    (hcs : dr.match_stored_documents ctx (.ok groups) t = .ok (.candidates cs)) :
    ∀ dq ∈ dr.doc_requests, ∃ g ∈ groups, ∃ m ∈ g,
      m.doc_type = dq.items_request.doc_type ∧
      ∀ ai ∈ dr.attribute_identifiers, ai.doc_type = m.doc_type →
        ai ∈ m.issuer_signed.attribute_identifiers m.doc_type := by
  intro dq hdq
  obtain ⟨cs', ms, fin, hml, hcase⟩ := match_stored_documents_ok_inv hcs
  obtain ⟨hcond, hr⟩ : (cs'.any (fun p => p.2.isEmpty) || !fin.isEmpty) = false ∧
      DeviceRequestMatch.candidates cs = .candidates cs' := by
    rcases hcase with ⟨-, hr⟩ | ⟨hc, hr⟩
    · exact absurd hr (by simp)
    · exact ⟨hc, hr⟩
  obtain rfl : cs = cs' := by simpa using hr
  obtain ⟨h1, -, h3, -, -, h6⟩ := matchLoop_ok_spec ctx t (nodup_keys_requested dr) hml
  rw [Bool.or_eq_false_iff] at hcond
  obtain ⟨hany, hfin⟩ := hcond
  have hfinnil : fin = [] := by
    have hemp : fin.isEmpty = true := by simpa using hfin
    simpa using hemp
  have hkey := requested_mem_keys hdq (hid dq hdq)
  obtain ⟨v, hv⟩ := aLookup_isSome_of_mem_keys hkey
  have hentry := mem_of_aLookup hv
  have htypes : dq.items_request.doc_type ∈ groupDocTypes groups := by
    rw [h3, eraseKeysAll_eq_filter groups (nodup_keys_requested dr)] at hfinnil
    have := List.filter_eq_nil_iff.mp hfinnil _ hentry
    simpa using this
  obtain ⟨g, hg, m0, hh, htype0⟩ := mem_groupDocTypes.mp htypes
  have hcsmem : (m0.doc_type,
      (ProposedDocument.candidates_and_missing_attributes_from_mdocs g
        (reqGet dr.requestedAttributesByDocType m0.doc_type)
        (ctx.serializeChallenge t m0.doc_type)).1) ∈ cs := by
    rw [h1]
    unfold specCands
    apply List.mem_filterMap.mpr
    exact ⟨g, hg, by rw [hh]; rfl⟩
  have hnonempty : (ProposedDocument.candidates_and_missing_attributes_from_mdocs g
      (reqGet dr.requestedAttributesByDocType m0.doc_type)
      (ctx.serializeChallenge t m0.doc_type)).1 ≠ [] := by
    have := List.any_eq_false.mp hany _ hcsmem
    simpa using this
  obtain ⟨m, hm, hsat⟩ := cam_fst_ne_nil.mp hnonempty
  have hmtype : m.doc_type = m0.doc_type := h6 g hg m0 hh m hm
  refine ⟨g, hg, m, hm, by rw [hmtype, htype0], ?_⟩
  intro ai hai haitype
  have haiR : ai ∈ reqGet dr.requestedAttributesByDocType m0.doc_type :=
    mem_reqGet_requested.mpr ⟨hai, by rw [haitype, hmtype]⟩
  exact mdocSatisfies_iff.mp hsat ai haiR

/-- Backward half of C1's candidates condition: with a contract-honoring
source and a satisfying mdoc for every requested doctype, matching
returns `Candidates`. -/
theorem match_candidates_backward (ctx : Ctx) {dr : DeviceRequest}
    {groups : List (List Mdoc)} {t : SessionTranscript}
    (hcontract : SourceHonorsContract dr groups)
    (hid : ∀ dq ∈ dr.doc_requests, dq.items_request.attribute_identifiers ≠ [])
    (hAll : ∀ dq ∈ dr.doc_requests, ∃ g ∈ groups, ∃ m ∈ g,
      m.doc_type = dq.items_request.doc_type ∧
      ∀ ai ∈ dr.attribute_identifiers, ai.doc_type = m.doc_type →
        ai ∈ m.issuer_signed.attribute_identifiers m.doc_type) :
    ∃ cs, dr.match_stored_documents ctx (.ok groups) t = .ok (.candidates cs) := by
  obtain ⟨huni, hmemT, hndg⟩ := hcontract
  have huni' : ∀ g ∈ groups, ∀ m0, g.head? = some m0 →
      ∀ m ∈ g, m.doc_type = m0.doc_type := by
    intro g hg m0 hm0 m hm
    exact huni g hg m hm m0 (head?_mem hm0)
  have hmemK : ∀ d ∈ groupDocTypes groups,
      d ∈ dr.requestedAttributesByDocType.map Prod.fst := by
    intro d hd
    obtain ⟨dq, hdq, hdqd⟩ := List.mem_map.mp (hmemT d hd)
    rw [← hdqd]
    exact requested_mem_keys hdq (hid dq hdq)
  obtain ⟨out, hout⟩ := matchLoop_ok_of_contract ctx t huni hmemK hndg
  obtain ⟨cs', ms, fin⟩ := out
  obtain ⟨h1, -, h3, -, -, -⟩ := matchLoop_ok_spec ctx t (nodup_keys_requested dr) hout
  have hsat_of_group : ∀ g ∈ groups, ∀ m0, g.head? = some m0 →
      ∃ m ∈ g, mdocSatisfies m (reqGet dr.requestedAttributesByDocType m0.doc_type) = true := by
    intro g hg m0 hm0
    have hd : m0.doc_type ∈ groupDocTypes groups :=
      mem_groupDocTypes.mpr ⟨g, hg, m0, hm0, rfl⟩
    obtain ⟨dq, hdq, hdqd⟩ := List.mem_map.mp (hmemT _ hd)
    obtain ⟨g', hg', m, hm', htypeEq, hsatcl⟩ := hAll dq hdq
    have hmtype : m.doc_type = m0.doc_type := by rw [htypeEq, hdqd]
    cases hh' : g'.head? with
    | none =>
      rw [List.head?_eq_none_iff] at hh'
      subst hh'
      simp at hm'
    | some m0' =>
      have hm0'type : m0.doc_type = m0'.doc_type := by
        rw [← hmtype]
        exact huni' g' hg' m0' hh' m hm'
      have hgg : g = g' := head_type_unique hndg hg hg' hm0 hh' hm0'type
      refine ⟨m, by rw [hgg]; exact hm', ?_⟩
      apply mdocSatisfies_iff.mpr
      intro ai haiR
      obtain ⟨haireq, haitype⟩ := mem_reqGet_requested.mp haiR
      exact hsatcl ai haireq (by rw [haitype, hmtype])
  have hany : cs'.any (fun p => p.2.isEmpty) = false := by
    apply List.any_eq_false.mpr
    intro p hp
    rw [h1] at hp
    unfold specCands at hp
    obtain ⟨g, hg, hfg⟩ := List.mem_filterMap.mp hp
    cases hh : g.head? with
    | none => rw [hh] at hfg; simp at hfg
    | some m0 =>
      rw [hh] at hfg
      simp only [Option.map_some'] at hfg
      obtain rfl := (Option.some_inj.mp hfg).symm
      obtain ⟨m, hm, hsat⟩ := hsat_of_group g hg m0 hh
      have := (@cam_fst_ne_nil g (reqGet dr.requestedAttributesByDocType m0.doc_type)
        (ctx.serializeChallenge t m0.doc_type)).mpr ⟨m, hm, hsat⟩
      simpa using this
  have hfin : fin = [] := by
    rw [h3, eraseKeysAll_eq_filter groups (nodup_keys_requested dr)]
    apply List.filter_eq_nil_iff.mpr
    intro p hp
    simp only [decide_eq_true_eq, not_not]
    have hpk : p.1 ∈ dr.requestedAttributesByDocType.map Prod.fst :=
      List.mem_map_of_mem Prod.fst hp
    obtain ⟨ai, haireq, haitype⟩ := mem_keys_requested.mp hpk
    obtain ⟨dq, hdq, haidq⟩ := deviceRequest_ai_mem.mp haireq
    have hdqtype : dq.items_request.doc_type = p.1 := by
      rw [← haitype, itemsRequest_ai_doc_type haidq]
    obtain ⟨g, hg, m, hm, htypeEq, -⟩ := hAll dq hdq
    cases hh : g.head? with
    | none =>
      rw [List.head?_eq_none_iff] at hh
      subst hh
      simp at hm
    | some m0 =>
      have : m0.doc_type = p.1 := by
        rw [← huni' g hg m0 hh m hm, htypeEq, hdqtype]
      exact mem_groupDocTypes.mpr ⟨g, hg, m0, hh, this⟩
  refine ⟨cs', ?_⟩
  rw [match_stored_documents_eq, hout, Outcome.bind_ok,
    if_neg (by simp [hany, hfin])]

/-- C1 (amended): for a contract-honoring credential-source result over
a request in which every doctype carries at least one identifier,
matching returns `Candidates` iff every requested doctype has a returned
mdoc whose available identifiers include all requested identifiers for
that doctype; and when the outcome is `MissingAttributes`, a doctype
contributes to the reported set iff some returned group of that doctype
holds at least one non-satisfying mdoc (its first such mdoc's record is
reported, even when the same doctype also has a satisfying candidate),
or the doctype is requested but absent from the source's result. -/
theorem match_candidates_iff (ctx : Ctx) (dr : DeviceRequest)
    (groups : List (List Mdoc)) (t : SessionTranscript)
    (hcontract : SourceHonorsContract dr groups)
    (hid : ∀ dq ∈ dr.doc_requests, dq.items_request.attribute_identifiers ≠ []) :
    ((∃ cs, dr.match_stored_documents ctx (.ok groups) t = .ok (.candidates cs)) ↔
      ∀ dq ∈ dr.doc_requests, ∃ g ∈ groups, ∃ m ∈ g,
        m.doc_type = dq.items_request.doc_type ∧
        ∀ ai ∈ dr.attribute_identifiers, ai.doc_type = m.doc_type →
          ai ∈ m.issuer_signed.attribute_identifiers m.doc_type) ∧
    (∀ l, dr.match_stored_documents ctx (.ok groups) t = .ok (.missingAttributes l) →
      ∀ d, (∃ ai ∈ l, ai.doc_type = d) ↔
        ((∃ g ∈ groups, ∃ m0, g.head? = some m0 ∧ m0.doc_type = d ∧
            ∃ m ∈ g, mdocSatisfies m (reqGet dr.requestedAttributesByDocType d) = false) ∨
          (∃ ai ∈ dr.attribute_identifiers, ai.doc_type = d ∧
            d ∉ groupDocTypes groups))) := by
  refine ⟨⟨fun hex => ?_, fun hAll => match_candidates_backward ctx hcontract hid hAll⟩, ?_⟩
  · obtain ⟨cs, hcs⟩ := hex
    exact match_candidates_forward ctx hid hcs
  · intro l hl d
    rw [show l = specMissingList dr groups from match_missing_eq_spec hl]
    exact specMissingList_type_mem d

/-- C1 counterexample: doctype X has a satisfying held mdoc, yet an
X identifier appears in the `MissingAttributes` outcome (triggered by
the absent doctype Y) — refuting the claim that a doctype contributes
only when every held credential of that type fails. -/
theorem match_contribution_counterexample :
    exReq.match_stored_documents testCtx (.ok [[mdocX1, mdocX2]]) [1]
      = .ok (.missingAttributes [⟨"X", "ns", "a"⟩, ⟨"Y", "ns", "z"⟩]) ∧
    (∃ ai ∈ [(⟨"X", "ns", "a"⟩ : AttributeIdentifier), ⟨"Y", "ns", "z"⟩],
      ai.doc_type = "X") ∧
    (∃ m ∈ [mdocX1, mdocX2],
      mdocSatisfies m (reqGet exReq.requestedAttributesByDocType "X") = true) ∧
    SourceHonorsContract exReq [[mdocX1, mdocX2]] ∧
    (∀ dq ∈ exReq.doc_requests, dq.items_request.attribute_identifiers ≠ []) :=
  ⟨by decide, by decide, by decide, ⟨by decide, by decide, by decide⟩, by decide⟩

/-- C1 witness: the amended equivalences at a concrete two-type request
and a contract-honoring source result. -/
theorem match_candidates_iff_witness :
    ((∃ cs, exReq.match_stored_documents testCtx (.ok [[mdocX1], [mdocY1]]) [1]
        = .ok (.candidates cs)) ↔
      ∀ dq ∈ exReq.doc_requests, ∃ g ∈ [[mdocX1], [mdocY1]], ∃ m ∈ g,
        m.doc_type = dq.items_request.doc_type ∧
        ∀ ai ∈ exReq.attribute_identifiers, ai.doc_type = m.doc_type →
          ai ∈ m.issuer_signed.attribute_identifiers m.doc_type) ∧
    (∀ l, exReq.match_stored_documents testCtx (.ok [[mdocX1], [mdocY1]]) [1]
        = .ok (.missingAttributes l) →
      ∀ d, (∃ ai ∈ l, ai.doc_type = d) ↔
        ((∃ g ∈ [[mdocX1], [mdocY1]], ∃ m0, g.head? = some m0 ∧ m0.doc_type = d ∧
            ∃ m ∈ g, mdocSatisfies m (reqGet exReq.requestedAttributesByDocType d) = false) ∨
          (∃ ai ∈ exReq.attribute_identifiers, ai.doc_type = d ∧
            d ∉ groupDocTypes [[mdocX1], [mdocY1]]))) :=
  match_candidates_iff testCtx exReq [[mdocX1], [mdocY1]] [1]
    ⟨by decide, by decide, by decide⟩ (by decide)

end Disclosure
